import Mathlib

/-!
# The comments/posts/users join of `main.go`

A shallow embedding of `combineData`, `findPostByID`, `findUserByID`,
`getCommentsForPost` and `combinedDataHandler`.

Modelling conventions.

* A decoded JSON value (`interface{}` as produced by `encoding/json`) is a `Value`.
  A JSON number is decoded to a `float64`, whether or not it is written with a fraction
  (`1`, `1.5`); every finite `float64` is a rational, and `==` on finite `float64`s is
  equality of the rationals they denote, so numbers are carried as `ℚ`.
* `int` is the 64-bit signed integer.  `int(x)` on a `float64` truncates toward zero when
  the result fits (`goInt`); otherwise Go leaves the result implementation dependent, and
  the embedding takes what the gc compiler gives on amd64, the minimum `int`.
* `float64(n)` on an `int` is the integer itself (`goFloat64`): every `int` the program
  converts comes from `int(x)` of a `float64`, so it is the truncation of a `float64` or
  the minimum `int`, and both are `float64` values.
* A record (`map[string]interface{}`) is an association list; `Record.get` is the map
  index expression, `none` being the nil interface of an absent key.  A nil map (a JSON
  `null` element) indexes like the empty record.
* A run-time panic (failed type assertion, nil pointer dereference) is the `none` of the
  outer `Option`; a nil `*Post` / `*User` is the `none` of the inner `Option`.
* The slice `combinedData` is a `Slice`, which tells the nil slice from an empty one;
  `join` is the sequence of its elements.
-/

namespace GoLang1

/-- A value of type `interface{}` produced by the JSON decoder. -/
inductive Value where
  | null : Value
  | bool (b : Bool) : Value
  | num (x : ℚ) : Value
  | str (s : String) : Value
  | arr (xs : List Value) : Value
  | obj (kvs : List (String × Value)) : Value

/-- A decoded JSON object, `map[string]interface{}`. -/
abbrev Record := List (String × Value)

/-- The index expression `r[k]`: `none` is the nil interface of an absent key. -/
def Record.get (r : Record) (k : String) : Option Value :=
  List.lookup k r

/-- The type assertion `v.(float64)`; `none` is the panic. -/
def assertFloat64 : Option Value → Option ℚ
  | some (Value.num x) => some x
  | _ => none

/-- The type assertion `v.(string)`; `none` is the panic. -/
def assertString : Option Value → Option String
  | some (Value.str s) => some s
  | _ => none

/-- The least value of `int`, `-2^63`. -/
def minInt : Int := -9223372036854775808

/-- The greatest value of `int`, `2^63 - 1`. -/
def maxInt : Int := 9223372036854775807

/-- The conversion `int(x)` of a `float64`: truncation toward zero when the truncated value
is an `int`; otherwise the result of the gc compiler on amd64, the minimum `int`. -/
def goInt (x : ℚ) : Int :=
  if minInt ≤ Int.tdiv x.num (x.den : Int) ∧ Int.tdiv x.num (x.den : Int) ≤ maxInt then
    Int.tdiv x.num (x.den : Int)
  else minInt

/-- The conversion `float64(n)` of an `int`.  It is exact on every `int` that is itself a
`float64` value, which is the case of every result of `goInt` on a `float64`. -/
def goFloat64 (n : Int) : ℚ :=
  (n : ℚ)

structure Comment where
  PostID : Int
  ID : Int
  Name : String
  Body : String
  deriving DecidableEq, Repr

structure Post where
  UserID : Int
  ID : Int
  Title : String
  Body : String
  deriving DecidableEq, Repr

structure User where
  ID : Int
  Username : String
  deriving DecidableEq, Repr

/-- One element of `combinedData`: the map literal with its five keys. -/
structure CombinedRecord where
  postId : Int
  postName : String
  commentsCount : Int
  userName : String
  body : String
  deriving DecidableEq, Repr

/-- The struct literal `Comment{PostID: int(c["postId"].(float64)), ...}`. -/
def toComment (c : Record) : Option Comment := do
  let postId ← assertFloat64 (c.get "postId")
  let id ← assertFloat64 (c.get "id")
  let name ← assertString (c.get "name")
  let body ← assertString (c.get "body")
  pure { PostID := goInt postId, ID := goInt id, Name := name, Body := body }

/-- The struct literal `Post{UserID: int(p["userId"].(float64)), ...}`. -/
def toPost (p : Record) : Option Post := do
  let userId ← assertFloat64 (p.get "userId")
  let id ← assertFloat64 (p.get "id")
  let title ← assertString (p.get "title")
  let body ← assertString (p.get "body")
  pure { UserID := goInt userId, ID := goInt id, Title := title, Body := body }

/-- The struct literal `User{ID: int(u["id"].(float64)), Username: ...}`. -/
def toUser (u : Record) : Option User := do
  let id ← assertFloat64 (u.get "id")
  let username ← assertString (u.get "username")
  pure { ID := goInt id, Username := username }

/-- `findPostByID`: outer `none` is a panic, inner `none` the nil pointer. -/
def findPostByID : List Record → Int → Option (Option Post)
  | [], _ => some none
  | p :: ps, id => do
    let pid ← assertFloat64 (p.get "id")
    if pid = goFloat64 id then
      let post ← toPost p
      pure (some post)
    else
      findPostByID ps id

/-- `findUserByID`: outer `none` is a panic, inner `none` the nil pointer. -/
def findUserByID : List Record → Int → Option (Option User)
  | [], _ => some none
  | u :: us, id => do
    let uid ← assertFloat64 (u.get "id")
    if uid = goFloat64 id then
      let user ← toUser u
      pure (some user)
    else
      findUserByID us id

/-- `getCommentsForPost`: `none` is a panic. -/
def getCommentsForPost : List Record → Int → Option (List Comment)
  | [], _ => some []
  | c :: cs, postID => do
    let pid ← assertFloat64 (c.get "postId")
    if pid = goFloat64 postID then
      let comment ← toComment c
      let others ← getCommentsForPost cs postID
      pure (comment :: others)
    else
      getCommentsForPost cs postID

/-- The body of the loop of `combineData` for one element of `comments`: `none` is a
panic, `some none` the skipped comment, `some (some r)` the appended record. -/
def combineStep (comments posts users : List Record) (c : Record) :
    Option (Option CombinedRecord) := do
  let comment ← toComment c
  match ← findPostByID posts comment.PostID with
  | none => pure none
  | some post =>
    let user ← findUserByID users post.UserID
    let postComments ← getCommentsForPost comments post.ID
    let u ← user
    pure (some { postId := post.ID, postName := post.Title,
                 commentsCount := (postComments.length : Int),
                 userName := u.Username, body := comment.Body })

/-- A Go slice value: the nil slice, or a non-nil slice with its elements in order. -/
inductive Slice (α : Type) where
  | nil : Slice α
  | elems (xs : List α) : Slice α
  deriving DecidableEq, Repr

/-- The expression `make([]T, 0)`: an empty slice that is not nil. -/
def Slice.make {α : Type} : Slice α :=
  Slice.elems []

/-- The expression `append(s, x)`; its result is never nil. -/
def Slice.append {α : Type} : Slice α → α → Slice α
  | Slice.nil, x => Slice.elems [x]
  | Slice.elems xs, x => Slice.elems (xs ++ [x])

/-- The elements of a slice, in order; the nil slice has none. -/
def Slice.toList {α : Type} : Slice α → List α
  | Slice.nil => []
  | Slice.elems xs => xs

/-- The loop `for _, comment := range comments` of `combineData`, run over the remaining
elements `todo` with the slice `combinedData` built so far. -/
def combineLoop (comments posts users : List Record) :
    List Record → Slice CombinedRecord → Option (Slice CombinedRecord)
  | [], combinedData => some combinedData
  | c :: rest, combinedData =>
    match combineStep comments posts users c with
    | none => none
    | some none => combineLoop comments posts users rest combinedData
    | some (some combined) =>
      combineLoop comments posts users rest (combinedData.append combined)

/-- Lines 49-74 of `combineData` on the three fetched collections: the slice made at line
49, run through the loop and returned at line 74. -/
def joinSlice (comments posts users : List Record) : Option (Slice CombinedRecord) :=
  combineLoop comments posts users comments Slice.make

/-- The join: the sequence of records of the slice lines 49-74 of `combineData` return. -/
def join (comments posts users : List Record) : Option (List CombinedRecord) :=
  (joinSlice comments posts users).map Slice.toList

/-- The records the loop appends while running over `todo`, in order (the loop of
`combineData` without its accumulator; see `combineLoop_eq`). -/
def emitted (comments posts users : List Record) : List Record → Option (List CombinedRecord)
  | [] => some []
  | c :: rest =>
    match combineStep comments posts users c with
    | none => none
    | some none => emitted comments posts users rest
    | some (some combined) => (emitted comments posts users rest).map (combined :: ·)

/-- The number of records of `comments` whose `postId` equals `P`. -/
def countWithPostId (comments : List Record) (P : Int) : Nat :=
  comments.countP (fun c => decide (assertFloat64 (c.get "postId") = some (P : ℚ)))

/-- The search shared by `findPostByID` and `findUserByID`: scan in order, assert the
`id` of each record, convert and return the first record whose `id` equals `id`. -/
def scanByID {α : Type} (conv : Record → Option α) : List Record → Int → Option (Option α)
  | [], _ => some none
  | r :: rs, id =>
    match assertFloat64 (r.get "id") with
    | none => none
    | some x => if x = goFloat64 id then (conv r).map some else scanByID conv rs id

/-- Some record of `rs` has an `id` equal to `x`. -/
def hasWithId (rs : List Record) (x : ℚ) : Bool :=
  rs.any (fun r => decide (assertFloat64 (r.get "id") = some x))

/-- The comment's `postId` equals the `id` of some post. -/
def hasMatchingPost (posts : List Record) (c : Record) : Bool :=
  match assertFloat64 (c.get "postId") with
  | some x => hasWithId posts x
  | none => false

/-- The comment's `postId`, when numeric, is integer-valued. -/
def integerPostId (c : Record) : Bool :=
  match assertFloat64 (c.get "postId") with
  | some x => decide (x.den = 1)
  | none => true

/-- The number `x` is the value of an `int`: integer-valued and between `minInt` and
`maxInt`. -/
def representableAsInt (x : ℚ) : Bool :=
  decide (x.den = 1 ∧ minInt ≤ x.num ∧ x.num ≤ maxInt)

/-- The comment's `postId`, when numeric, is the value of an `int`. -/
def postIdIsInt (c : Record) : Bool :=
  match assertFloat64 (c.get "postId") with
  | some x => representableAsInt x
  | none => true

/-- The post's `id`, when numeric, is integer-valued. -/
def integerId (p : Record) : Bool :=
  match assertFloat64 (p.get "id") with
  | some x => decide (x.den = 1)
  | none => true

/-- A comment record with numeric `postId`, `id` and string `name`, `body`. -/
def wellTypedComment (c : Record) : Bool :=
  (assertFloat64 (c.get "postId")).isSome && (assertFloat64 (c.get "id")).isSome &&
    (assertString (c.get "name")).isSome && (assertString (c.get "body")).isSome

/-- A post record with numeric `userId`, `id` and string `title`, `body`. -/
def wellTypedPost (p : Record) : Bool :=
  (assertFloat64 (p.get "userId")).isSome && (assertFloat64 (p.get "id")).isSome &&
    (assertString (p.get "title")).isSome && (assertString (p.get "body")).isSome

/-- A user record with numeric `id` and string `username`. -/
def wellTypedUser (u : Record) : Bool :=
  (assertFloat64 (u.get "id")).isSome && (assertString (u.get "username")).isSome

/-- A comment record as the comments endpoint serves it. -/
def mkComment (postId id : ℚ) (name body : String) : Record :=
  [("postId", Value.num postId), ("id", Value.num id), ("name", Value.str name),
   ("body", Value.str body)]

/-- A post record as the posts endpoint serves it. -/
def mkPost (userId id : ℚ) (title body : String) : Record :=
  [("userId", Value.num userId), ("id", Value.num id), ("title", Value.str title),
   ("body", Value.str body)]

/-- A user record as the users endpoint serves it. -/
def mkUser (id : ℚ) (username : String) : Record :=
  [("id", Value.num id), ("username", Value.str username)]

/-- The JSON number `1e19`: integer-valued and greater than every `int`. -/
def oneE19 : ℚ := 10000000000000000000

/-- The JSON number `-9223372036854775808`, the minimum `int`. -/
def minIntNumber : ℚ := -9223372036854775808

/-- The comments of the literal scenario. -/
def scenarioComments : List Record :=
  [mkComment 1 1 "a" "hi", mkComment 1 2 "b" "yo", mkComment 2 3 "c" "sup"]

/-- The posts of the literal scenario. -/
def scenarioPosts : List Record :=
  [mkPost 10 1 "Post One" "..."]

/-- The users of the literal scenario. -/
def scenarioUsers : List Record :=
  [mkUser 10 "alice"]

/-- The URL `combineData` fetches the comments from. -/
def commentsURL : String := "https://jsonplaceholder.typicode.com/comments"

/-- The URL `combineData` fetches the posts from. -/
def postsURL : String := "https://jsonplaceholder.typicode.com/posts"

/-- The URL `combineData` fetches the users from. -/
def usersURL : String := "https://jsonplaceholder.typicode.com/users"

/-- `combineData`.  The network call `fetchData` is a parameter giving the `(data, err)`
pair returned for each URL, `Except.error msg` being a non-nil error whose message is
`msg`.  The outer `none` is a panic; `some (Except.error msg)` is the return `nil, err`. -/
def combineData (fetchData : String → Except String (List Record)) :
    Option (Except String (Slice CombinedRecord)) :=
  match fetchData commentsURL with
  | Except.error err => some (Except.error err)
  | Except.ok comments =>
    match fetchData postsURL with
    | Except.error err => some (Except.error err)
    | Except.ok posts =>
      match fetchData usersURL with
      | Except.error err => some (Except.error err)
      | Except.ok users =>
        match joinSlice comments posts users with
        | none => none
        | some combinedData => some (Except.ok combinedData)

/-- `http.StatusInternalServerError`. -/
def StatusInternalServerError : Nat := 500

/-- `http.StatusOK`. -/
def StatusOK : Nat := 200

/-- What one run of `combinedDataHandler` does with its response writer. -/
inductive Response where
  /-- The call `http.Error(w, msg, code)` followed by `return`. -/
  | error (msg : String) (code : Nat) : Response
  /-- The header `Content-Type` set to `contentType`, then `w.WriteHeader(code)` and
  `w.Write(body)`. -/
  | written (contentType : String) (code : Nat) (body : String) : Response
  /-- The handler panics before anything is written to `w`. -/
  | panicked : Response
  deriving DecidableEq, Repr

/-- `combinedDataHandler`, with `fetchData` and `json.Marshal` as parameters. -/
def combinedDataHandler (fetchData : String → Except String (List Record))
    (marshal : Slice CombinedRecord → Except String String) : Response :=
  match combineData fetchData with
  | none => Response.panicked
  | some (Except.error err) => Response.error err StatusInternalServerError
  | some (Except.ok combined) =>
    match marshal combined with
    | Except.error err => Response.error err StatusInternalServerError
    | Except.ok response => Response.written "application/json" StatusOK response

/-- The post's `userId`, when numeric, is integer-valued. -/
def integerUserId (p : Record) : Bool :=
  match assertFloat64 (p.get "userId") with
  | some y => decide (y.den = 1)
  | none => true

/-- The post's `userId`, when numeric, is the value of an `int`. -/
def userIdIsInt (p : Record) : Bool :=
  match assertFloat64 (p.get "userId") with
  | some y => representableAsInt y
  | none => true

/-- The post's `userId` equals the `id` of some user. -/
def userIdResolves (users : List Record) (p : Record) : Bool :=
  match assertFloat64 (p.get "userId") with
  | some y => hasWithId users y
  | none => false

/-- The call `json.Marshal(combined)`, as package `encoding/json` documents the encoding of
a slice: the nil slice encodes as `null`, a non-nil slice as a JSON array, its elements
separated by commas.  The encoding of one element (a map of strings and ints, which cannot
fail) is the parameter `encodeElem`. -/
def jsonMarshal (encodeElem : CombinedRecord → String) :
    Slice CombinedRecord → Except String String
  | Slice.nil => Except.ok "null"
  | Slice.elems xs => Except.ok ("[" ++ String.intercalate "," (xs.map encodeElem) ++ "]")

/-! ## Conversions -/

theorem goInt_inRange (x : ℚ) : minInt ≤ goInt x ∧ goInt x ≤ maxInt := by
  unfold goInt
  split
  · assumption
  · decide

theorem goInt_intCast (n : Int) (h : minInt ≤ n ∧ n ≤ maxInt) : goInt (n : ℚ) = n := by
  simp [goInt, h]

/-! ## Unfolding equations -/

theorem findPostByID_cons (p : Record) (ps : List Record) (id : Int) :
    findPostByID (p :: ps) id =
      match assertFloat64 (p.get "id") with
      | none => none
      | some pid => if pid = goFloat64 id then (toPost p).map some else findPostByID ps id := by
  cases h : assertFloat64 (p.get "id") with
  | none => simp [findPostByID, h]
  | some pid =>
    by_cases hp : pid = goFloat64 id
    · cases ht : toPost p <;> simp [findPostByID, h, hp, ht]
    · simp [findPostByID, h, hp]

theorem findUserByID_cons (u : Record) (us : List Record) (id : Int) :
    findUserByID (u :: us) id =
      match assertFloat64 (u.get "id") with
      | none => none
      | some uid => if uid = goFloat64 id then (toUser u).map some else findUserByID us id := by
  cases h : assertFloat64 (u.get "id") with
  | none => simp [findUserByID, h]
  | some uid =>
    by_cases hp : uid = goFloat64 id
    · cases ht : toUser u <;> simp [findUserByID, h, hp, ht]
    · simp [findUserByID, h, hp]

theorem getCommentsForPost_cons (c : Record) (cs : List Record) (postID : Int) :
    getCommentsForPost (c :: cs) postID =
      match assertFloat64 (c.get "postId") with
      | none => none
      | some pid =>
        if pid = goFloat64 postID then
          match toComment c, getCommentsForPost cs postID with
          | some comment, some others => some (comment :: others)
          | _, _ => none
        else getCommentsForPost cs postID := by
  cases h : assertFloat64 (c.get "postId") with
  | none => simp [getCommentsForPost, h]
  | some pid =>
    by_cases hp : pid = goFloat64 postID
    · cases ht : toComment c <;> cases hr : getCommentsForPost cs postID <;>
        simp [getCommentsForPost, h, hp, ht, hr]
    · simp [getCommentsForPost, h, hp]

theorem combineStep_eq (comments posts users : List Record) (c : Record) :
    combineStep comments posts users c =
      match toComment c with
      | none => none
      | some comment =>
        match findPostByID posts comment.PostID with
        | none => none
        | some none => some none
        | some (some post) =>
          match findUserByID users post.UserID, getCommentsForPost comments post.ID with
          | some (some u), some postComments =>
            some (some { postId := post.ID, postName := post.Title,
                         commentsCount := (postComments.length : Int),
                         userName := u.Username, body := comment.Body })
          | _, _ => none := by
  cases hc : toComment c with
  | none => simp [combineStep, hc]
  | some comment =>
    cases hp : findPostByID posts comment.PostID with
    | none => simp [combineStep, hc, hp]
    | some op =>
      cases op with
      | none => simp [combineStep, hc, hp]
      | some post =>
        cases hu : findUserByID users post.UserID with
        | none => simp [combineStep, hc, hp, hu]
        | some ou =>
          cases hg : getCommentsForPost comments post.ID with
          | none => cases ou <;> simp [combineStep, hc, hp, hu, hg]
          | some l => cases ou <;> simp [combineStep, hc, hp, hu, hg]

theorem combineStep_some_some {comments posts users : List Record} {c : Record}
    {r : CombinedRecord} (h : combineStep comments posts users c = some (some r)) :
    ∃ comment post u postComments,
      toComment c = some comment ∧
      findPostByID posts comment.PostID = some (some post) ∧
      findUserByID users post.UserID = some (some u) ∧
      getCommentsForPost comments post.ID = some postComments ∧
      r = { postId := post.ID, postName := post.Title,
            commentsCount := (postComments.length : Int),
            userName := u.Username, body := comment.Body } := by
  rw [combineStep_eq] at h
  cases hc : toComment c with
  | none => simp [hc] at h
  | some comment =>
    cases hp : findPostByID posts comment.PostID with
    | none => simp [hc, hp] at h
    | some op =>
      cases op with
      | none => simp [hc, hp] at h
      | some post =>
        cases hu : findUserByID users post.UserID with
        | none => simp [hc, hp, hu] at h
        | some ou =>
          cases ou with
          | none => simp [hc, hp, hu] at h
          | some u =>
            cases hg : getCommentsForPost comments post.ID with
            | none => simp [hc, hp, hu, hg] at h
            | some l =>
              simp [hc, hp, hu, hg] at h
              exact ⟨comment, post, u, l, rfl, hp, hu, hg, h.symm⟩

theorem combineStep_some_none {comments posts users : List Record} {c : Record}
    (h : combineStep comments posts users c = some none) :
    ∃ comment, toComment c = some comment ∧
      findPostByID posts comment.PostID = some none := by
  rw [combineStep_eq] at h
  cases hc : toComment c with
  | none => simp [hc] at h
  | some comment =>
    cases hp : findPostByID posts comment.PostID with
    | none => simp [hc, hp] at h
    | some op =>
      cases op with
      | none => exact ⟨comment, rfl, hp⟩
      | some post =>
        cases hu : findUserByID users post.UserID with
        | none => simp [hc, hp, hu] at h
        | some ou =>
          cases ou with
          | none => simp [hc, hp, hu] at h
          | some u =>
            cases hg : getCommentsForPost comments post.ID <;> simp [hc, hp, hu, hg] at h

/-! ## The loop -/

theorem foldl_append_elems {α : Type} (out : List α) :
    ∀ xs : List α, out.foldl Slice.append (Slice.elems xs) = Slice.elems (xs ++ out) := by
  induction out with
  | nil => intro xs; simp
  | cons r rest ih =>
    intro xs
    simp only [List.foldl_cons, Slice.append, ih, List.append_assoc, List.singleton_append]

theorem combineLoop_eq (comments posts users : List Record) (todo : List Record)
    (acc : Slice CombinedRecord) :
    combineLoop comments posts users todo acc =
      (emitted comments posts users todo).map (fun out => out.foldl Slice.append acc) := by
  induction todo generalizing acc with
  | nil => simp [combineLoop, emitted]
  | cons c rest ih =>
    unfold combineLoop emitted
    cases combineStep comments posts users c with
    | none => rfl
    | some o =>
      cases o with
      | none => exact ih acc
      | some r =>
        simp only [ih]
        cases emitted comments posts users rest <;> simp

theorem joinSlice_eq_emitted (comments posts users : List Record) :
    joinSlice comments posts users =
      (emitted comments posts users comments).map Slice.elems := by
  unfold joinSlice Slice.make
  rw [combineLoop_eq]
  cases emitted comments posts users comments <;> simp [foldl_append_elems]

theorem join_eq_emitted (comments posts users : List Record) :
    join comments posts users = emitted comments posts users comments := by
  unfold join
  rw [joinSlice_eq_emitted]
  cases emitted comments posts users comments <;> simp [Slice.toList]

theorem joinSlice_eq_join (comments posts users : List Record) :
    joinSlice comments posts users = (join comments posts users).map Slice.elems := by
  rw [join_eq_emitted, joinSlice_eq_emitted]

theorem emitted_none_of_step_none {comments posts users : List Record} {c : Record}
    (hstep : combineStep comments posts users c = none) :
    ∀ {todo : List Record}, c ∈ todo → emitted comments posts users todo = none := by
  intro todo
  induction todo with
  | nil => intro h; cases h
  | cons d rest ih =>
    intro h
    unfold emitted
    rcases List.mem_cons.mp h with rfl | hmem
    · rw [hstep]
    · cases combineStep comments posts users d with
      | none => rfl
      | some o =>
        cases o with
        | none => exact ih hmem
        | some r => simp [ih hmem]

theorem emitted_mem {comments posts users : List Record} :
    ∀ {todo : List Record} {out : List CombinedRecord},
      emitted comments posts users todo = some out →
      ∀ r ∈ out, ∃ c ∈ todo, combineStep comments posts users c = some (some r) := by
  intro todo
  induction todo with
  | nil =>
    intro out h r hr
    simp [emitted] at h
    subst h
    cases hr
  | cons d rest ih =>
    intro out h r hr
    unfold emitted at h
    cases hd : combineStep comments posts users d with
    | none => simp [hd] at h
    | some o =>
      cases o with
      | none =>
        simp only [hd] at h
        obtain ⟨c, hc, hs⟩ := ih h r hr
        exact ⟨c, List.mem_cons_of_mem _ hc, hs⟩
      | some r0 =>
        simp only [hd] at h
        cases he : emitted comments posts users rest with
        | none => simp [he] at h
        | some out0 =>
          simp [he] at h
          subst h
          rcases List.mem_cons.mp hr with rfl | hr0
          · exact ⟨d, List.mem_cons_self _ _, hd⟩
          · obtain ⟨c, hc, hs⟩ := ih he r hr0
            exact ⟨c, List.mem_cons_of_mem _ hc, hs⟩

theorem getCommentsForPost_length {postID : Int} :
    ∀ {comments : List Record} {l : List Comment},
      getCommentsForPost comments postID = some l →
      l.length = countWithPostId comments postID := by
  intro comments
  induction comments with
  | nil =>
    intro l h
    simp [getCommentsForPost] at h
    subst h
    rfl
  | cons c cs ih =>
    intro l h
    rw [getCommentsForPost_cons] at h
    cases hp : assertFloat64 (c.get "postId") with
    | none => simp [hp] at h
    | some pid =>
      simp only [hp] at h
      by_cases heq : pid = goFloat64 postID
      · simp only [heq, if_true] at h
        cases ht : toComment c with
        | none => simp [ht] at h
        | some comment =>
          cases hr : getCommentsForPost cs postID with
          | none => simp [ht, hr] at h
          | some others =>
            simp [ht, hr] at h
            subst h
            have := ih hr
            simp [countWithPostId, List.countP_cons, hp, heq, goFloat64] at this ⊢
            exact this
      · simp only [heq, if_false] at h
        have := ih h
        have hne : ¬ pid = (postID : ℚ) := heq
        simp [countWithPostId, List.countP_cons, hp, hne] at this ⊢
        exact this

/-! ## The struct literals -/

theorem assertString_eq_some {v : Option Value} {s : String} (h : assertString v = some s) :
    v = some (Value.str s) := by
  cases v with
  | none => simp [assertString] at h
  | some w => cases w <;> simp_all [assertString]

theorem toComment_some {c : Record} {comment : Comment} (h : toComment c = some comment) :
    ∃ x i, assertFloat64 (c.get "postId") = some x ∧ assertFloat64 (c.get "id") = some i ∧
      assertString (c.get "name") = some comment.Name ∧
      assertString (c.get "body") = some comment.Body ∧
      comment.PostID = goInt x ∧ comment.ID = goInt i := by
  unfold toComment at h
  cases h1 : assertFloat64 (c.get "postId") with
  | none => simp [h1] at h
  | some x =>
    cases h2 : assertFloat64 (c.get "id") with
    | none => simp [h1, h2] at h
    | some i =>
      cases h3 : assertString (c.get "name") with
      | none => simp [h1, h2, h3] at h
      | some nm =>
        cases h4 : assertString (c.get "body") with
        | none => simp [h1, h2, h3, h4] at h
        | some b =>
          simp [h1, h2, h3, h4] at h
          subst h
          exact ⟨x, i, rfl, rfl, rfl, rfl, rfl, rfl⟩

theorem toComment_eq_none_iff (c : Record) :
    toComment c = none ↔ wellTypedComment c = false := by
  unfold toComment wellTypedComment
  cases assertFloat64 (c.get "postId") <;> cases assertFloat64 (c.get "id") <;>
    cases assertString (c.get "name") <;> cases assertString (c.get "body") <;> simp

theorem toPost_some {p : Record} {post : Post} (h : toPost p = some post) :
    ∃ u x, assertFloat64 (p.get "userId") = some u ∧ assertFloat64 (p.get "id") = some x ∧
      assertString (p.get "title") = some post.Title ∧
      assertString (p.get "body") = some post.Body ∧
      post.UserID = goInt u ∧ post.ID = goInt x := by
  unfold toPost at h
  cases h1 : assertFloat64 (p.get "userId") with
  | none => simp [h1] at h
  | some u =>
    cases h2 : assertFloat64 (p.get "id") with
    | none => simp [h1, h2] at h
    | some x =>
      cases h3 : assertString (p.get "title") with
      | none => simp [h1, h2, h3] at h
      | some t =>
        cases h4 : assertString (p.get "body") with
        | none => simp [h1, h2, h3, h4] at h
        | some b =>
          simp [h1, h2, h3, h4] at h
          subst h
          exact ⟨u, x, rfl, rfl, rfl, rfl, rfl, rfl⟩

theorem toPost_eq_none_iff (p : Record) :
    toPost p = none ↔ wellTypedPost p = false := by
  unfold toPost wellTypedPost
  cases assertFloat64 (p.get "userId") <;> cases assertFloat64 (p.get "id") <;>
    cases assertString (p.get "title") <;> cases assertString (p.get "body") <;> simp

theorem toUser_some {u : Record} {user : User} (h : toUser u = some user) :
    ∃ x, assertFloat64 (u.get "id") = some x ∧
      assertString (u.get "username") = some user.Username ∧ user.ID = goInt x := by
  unfold toUser at h
  cases h1 : assertFloat64 (u.get "id") with
  | none => simp [h1] at h
  | some x =>
    cases h2 : assertString (u.get "username") with
    | none => simp [h1, h2] at h
    | some nm =>
      simp [h1, h2] at h
      subst h
      exact ⟨x, rfl, rfl, rfl⟩

theorem toUser_eq_none_iff (u : Record) :
    toUser u = none ↔ wellTypedUser u = false := by
  unfold toUser wellTypedUser
  cases assertFloat64 (u.get "id") <;> cases assertString (u.get "username") <;> simp

/-! ## The linear scans -/

theorem findPostByID_eq_scan (ps : List Record) (id : Int) :
    findPostByID ps id = scanByID toPost ps id := by
  induction ps with
  | nil => rfl
  | cons p ps ih =>
    rw [findPostByID_cons, scanByID, ih]

theorem findUserByID_eq_scan (us : List Record) (id : Int) :
    findUserByID us id = scanByID toUser us id := by
  induction us with
  | nil => rfl
  | cons u us ih =>
    rw [findUserByID_cons, scanByID, ih]

theorem scanByID_cons_match {α : Type} (conv : Record → Option α) {r : Record}
    (rs : List Record) {id : Int} (h : assertFloat64 (r.get "id") = some (id : ℚ)) :
    scanByID conv (r :: rs) id = (conv r).map some := by
  simp [scanByID, h, goFloat64]

theorem scanByID_some_some {α : Type} {conv : Record → Option α} {id : Int} {a : α} :
    ∀ {rs : List Record}, scanByID conv rs id = some (some a) →
      ∃ r ∈ rs, assertFloat64 (r.get "id") = some (id : ℚ) ∧ conv r = some a := by
  intro rs
  induction rs with
  | nil => intro h; simp [scanByID] at h
  | cons r rs ih =>
    intro h
    unfold scanByID at h
    cases hr : assertFloat64 (r.get "id") with
    | none => simp [hr] at h
    | some x =>
      simp only [hr] at h
      by_cases hx : x = goFloat64 id
      · simp only [hx, if_true] at h
        cases hc : conv r with
        | none => simp [hc] at h
        | some b =>
          simp [hc] at h
          subst h
          exact ⟨r, List.mem_cons_self _ _, by rw [hr, hx]; rfl, hc⟩
      · simp only [hx, if_false] at h
        obtain ⟨q, hq, h1, h2⟩ := ih h
        exact ⟨q, List.mem_cons_of_mem _ hq, h1, h2⟩

theorem scanByID_some_none {α : Type} {conv : Record → Option α} {id : Int} :
    ∀ {rs : List Record}, scanByID conv rs id = some none →
      ∀ r ∈ rs, assertFloat64 (r.get "id") ≠ some (id : ℚ) := by
  intro rs
  induction rs with
  | nil => intro _ r hr; cases hr
  | cons r rs ih =>
    intro h q hq
    unfold scanByID at h
    cases hr : assertFloat64 (r.get "id") with
    | none => simp [hr] at h
    | some x =>
      simp only [hr] at h
      by_cases hx : x = goFloat64 id
      · simp only [hx, if_true] at h
        cases hc : conv r <;> simp [hc] at h
      · simp only [hx, if_false] at h
        rcases List.mem_cons.mp hq with rfl | hq
        · rw [hr]
          intro hcontra
          exact hx (Option.some.inj hcontra)
        · exact ih h q hq

theorem scanByID_no_match {α : Type} (conv : Record → Option α) {id : Int} :
    ∀ {rs : List Record},
      (∀ r ∈ rs, ∃ y, assertFloat64 (r.get "id") = some y ∧ y ≠ (id : ℚ)) →
      scanByID conv rs id = some none := by
  intro rs
  induction rs with
  | nil => intro _; rfl
  | cons r rs ih =>
    intro h
    obtain ⟨y, hy, hne⟩ := h r (List.mem_cons_self _ _)
    have hne2 : ¬ y = goFloat64 id := hne
    simp only [scanByID, hy, hne2, if_false]
    exact ih (fun q hq => h q (List.mem_cons_of_mem _ hq))

theorem scanByID_append {α : Type} (conv : Record → Option α) {id : Int} (tl : List Record) :
    ∀ {pre : List Record}, (∀ q ∈ pre, assertFloat64 (q.get "id") ≠ some (id : ℚ)) →
      scanByID conv (pre ++ tl) id =
        if pre.all (fun q => (assertFloat64 (q.get "id")).isSome) then scanByID conv tl id
        else none := by
  intro pre
  induction pre with
  | nil => intro _; simp
  | cons r rs ih =>
    intro h
    have hr := h r (List.mem_cons_self _ _)
    have ih2 := ih (fun q hq => h q (List.mem_cons_of_mem _ hq))
    cases hx : assertFloat64 (r.get "id") with
    | none => simp [scanByID, hx]
    | some x =>
      have hne : ¬ x = goFloat64 id := by
        intro hcontra
        apply hr
        rw [hx, hcontra]
        rfl
      rw [List.cons_append]
      simp only [scanByID, hx, hne, if_false, ih2, List.all_cons,
        Option.isSome_some, Bool.true_and]

/-! ## C1: the comments count -/

/-- C1: whenever the join succeeds, the `commentsCount` of every output record equals the
number of records of the whole comments collection whose `postId` equals the record's
`postId`; hence output records with the same `postId` carry the same `commentsCount`. -/
theorem commentsCount_eq_count (comments posts users : List Record)
    (out : List CombinedRecord) (h : join comments posts users = some out) :
    (∀ r ∈ out, r.commentsCount = (countWithPostId comments r.postId : Int)) ∧
    (∀ r ∈ out, ∀ s ∈ out, r.postId = s.postId → r.commentsCount = s.commentsCount) := by
  have key : ∀ r ∈ out, r.commentsCount = (countWithPostId comments r.postId : Int) := by
    intro r hr
    rw [join_eq_emitted] at h
    obtain ⟨c, _, hs⟩ := emitted_mem h r hr
    obtain ⟨comment, post, u, l, _, _, _, hg, rfl⟩ := combineStep_some_some hs
    simp [getCommentsForPost_length hg]
  refine ⟨key, ?_⟩
  intro r hr s hs hrs
  rw [key r hr, key s hs, hrs]

theorem commentsCount_eq_count_witness :
    join scenarioComments scenarioPosts scenarioUsers =
        some [⟨1, "Post One", 2, "alice", "hi"⟩, ⟨1, "Post One", 2, "alice", "yo"⟩] ∧
      ((∀ r ∈ [(⟨1, "Post One", 2, "alice", "hi"⟩ : CombinedRecord),
                ⟨1, "Post One", 2, "alice", "yo"⟩],
          r.commentsCount = (countWithPostId scenarioComments r.postId : Int)) ∧
       (∀ r ∈ [(⟨1, "Post One", 2, "alice", "hi"⟩ : CombinedRecord),
                ⟨1, "Post One", 2, "alice", "yo"⟩],
          ∀ s ∈ [(⟨1, "Post One", 2, "alice", "hi"⟩ : CombinedRecord),
                ⟨1, "Post One", 2, "alice", "yo"⟩],
          r.postId = s.postId → r.commentsCount = s.commentsCount)) :=
  ⟨by decide, commentsCount_eq_count scenarioComments scenarioPosts scenarioUsers _ (by decide)⟩

/-! ## C2: the output as a filter of the comments -/

theorem goInt_cast_of_int {x : ℚ} (h : representableAsInt x = true) :
    ((goInt x : Int) : ℚ) = x := by
  obtain ⟨hden, hrange⟩ : x.den = 1 ∧ minInt ≤ x.num ∧ x.num ≤ maxInt := by
    simpa [representableAsInt] using h
  have hx : goInt x = x.num := by simp [goInt, hden, hrange]
  rw [hx]
  exact Rat.coe_int_num_of_den_eq_one hden

theorem hasWithId_eq_true {rs : List Record} {x : ℚ} :
    hasWithId rs x = true ↔ ∃ r ∈ rs, assertFloat64 (r.get "id") = some x := by
  simp [hasWithId, List.any_eq_true]

theorem hasWithId_eq_false {rs : List Record} {x : ℚ} :
    hasWithId rs x = false ↔ ∀ r ∈ rs, assertFloat64 (r.get "id") ≠ some x := by
  rw [← Bool.not_eq_true, hasWithId_eq_true]
  simp

theorem step_emits_matching {comments posts users : List Record} {c : Record}
    {r : CombinedRecord} (hint : postIdIsInt c = true)
    (h : combineStep comments posts users c = some (some r)) :
    hasMatchingPost posts c = true ∧ c.get "body" = some (Value.str r.body) := by
  obtain ⟨comment, post, u, l, hc, hp, _, _, rfl⟩ := combineStep_some_some h
  obtain ⟨x, i, hx, _, _, hb, hpid, _⟩ := toComment_some hc
  rw [findPostByID_eq_scan] at hp
  obtain ⟨p, hpm, hpi, _⟩ := scanByID_some_some hp
  have hden : representableAsInt x = true := by simpa [postIdIsInt, hx] using hint
  refine ⟨?_, assertString_eq_some hb⟩
  simp only [hasMatchingPost, hx]
  rw [hasWithId_eq_true]
  refine ⟨p, hpm, ?_⟩
  rw [hpi, hpid, goInt_cast_of_int hden]

theorem step_skips_unmatched {comments posts users : List Record} {c : Record}
    (hint : postIdIsInt c = true)
    (h : combineStep comments posts users c = some none) :
    hasMatchingPost posts c = false := by
  obtain ⟨comment, hc, hp⟩ := combineStep_some_none h
  obtain ⟨x, i, hx, _, _, _, hpid, _⟩ := toComment_some hc
  rw [findPostByID_eq_scan] at hp
  have hno := scanByID_some_none hp
  have hden : representableAsInt x = true := by simpa [postIdIsInt, hx] using hint
  simp only [hasMatchingPost, hx]
  rw [hasWithId_eq_false]
  intro p hpm
  have := hno p hpm
  rwa [hpid, goInt_cast_of_int hden] at this

theorem emitted_filter {comments posts users : List Record} :
    ∀ {todo : List Record} {out : List CombinedRecord},
      emitted comments posts users todo = some out →
      (∀ c ∈ todo, postIdIsInt c = true) →
      (todo.filter (hasMatchingPost posts)).map (fun c => c.get "body") =
        out.map (fun r => some (Value.str r.body)) := by
  intro todo
  induction todo with
  | nil =>
    intro out h _
    simp [emitted] at h
    subst h
    rfl
  | cons d rest ih =>
    intro out h hint
    have hd := hint d (List.mem_cons_self _ _)
    have hrest : ∀ c ∈ rest, postIdIsInt c = true :=
      fun c hc => hint c (List.mem_cons_of_mem _ hc)
    unfold emitted at h
    cases hs : combineStep comments posts users d with
    | none => simp [hs] at h
    | some o =>
      cases o with
      | none =>
        simp only [hs] at h
        rw [List.filter_cons_of_neg (by simp [step_skips_unmatched hd hs])]
        exact ih h hrest
      | some r =>
        simp only [hs] at h
        cases he : emitted comments posts users rest with
        | none => simp [he] at h
        | some out0 =>
          simp [he] at h
          subst h
          obtain ⟨hm, hb⟩ := step_emits_matching hd hs
          rw [List.filter_cons_of_pos hm]
          simp only [List.map_cons, hb, ih he hrest]

/-- C2, as stated, fails.  A comment whose `postId` is `1.5` equals the `id` of no post, yet
`int(1.5) = 1` matches the post with `id` `1` and a record is emitted for it.  A comment
whose `postId` is `1e19` equals the `id` `1e19` of a post, yet `int(1e19)` is not `1e19` (it
is the minimum `int`), no post is found and no record is emitted. -/
theorem output_filter_counterexample :
    (join [mkComment 1.5 1 "a" "hi"] [mkPost 10 1 "Post One" "..."] [mkUser 10 "alice"] =
        some [⟨1, "Post One", 0, "alice", "hi"⟩] ∧
      ([mkComment 1.5 1 "a" "hi"].filter
        (hasMatchingPost [mkPost 10 1 "Post One" "..."])).length = 0) ∧
    (integerPostId (mkComment oneE19 1 "a" "hi") = true ∧
      join [mkComment oneE19 1 "a" "hi"] [mkPost 10 oneE19 "Big" "x"] [mkUser 10 "alice"] =
        some [] ∧
      ([mkComment oneE19 1 "a" "hi"].filter
        (hasMatchingPost [mkPost 10 oneE19 "Big" "x"])).length = 1) := by
  decide!

/-- C2 (amended): whenever the join succeeds and every comment's `postId` is the value of an
`int` (integer-valued, from `-2^63` to `2^63 - 1`), the output is the order-preserving
filter of the comments to those whose `postId` equals the `id` of some post: as many records
as such comments, the i-th record carrying the body of the i-th such comment. -/
theorem output_is_filter_of_comments (comments posts users : List Record)
    (out : List CombinedRecord) (h : join comments posts users = some out)
    (hint : ∀ c ∈ comments, postIdIsInt c = true) :
    out.length = (comments.filter (hasMatchingPost posts)).length ∧
    (comments.filter (hasMatchingPost posts)).map (fun c => c.get "body") =
      out.map (fun r => some (Value.str r.body)) := by
  rw [join_eq_emitted] at h
  have key := emitted_filter h hint
  refine ⟨?_, key⟩
  have := congrArg List.length key
  simpa using this.symm

theorem output_is_filter_of_comments_witness :
    (join scenarioComments scenarioPosts scenarioUsers =
        some [⟨1, "Post One", 2, "alice", "hi"⟩, ⟨1, "Post One", 2, "alice", "yo"⟩] ∧
      (∀ c ∈ scenarioComments, postIdIsInt c = true)) ∧
    ([(⟨1, "Post One", 2, "alice", "hi"⟩ : CombinedRecord),
        ⟨1, "Post One", 2, "alice", "yo"⟩].length =
        (scenarioComments.filter (hasMatchingPost scenarioPosts)).length ∧
      (scenarioComments.filter (hasMatchingPost scenarioPosts)).map (fun c => c.get "body") =
        [(⟨1, "Post One", 2, "alice", "hi"⟩ : CombinedRecord),
          ⟨1, "Post One", 2, "alice", "yo"⟩].map (fun r => some (Value.str r.body))) :=
  ⟨⟨by decide, by decide⟩,
    output_is_filter_of_comments scenarioComments scenarioPosts scenarioUsers _
      (by decide) (by decide)⟩

/-! ## C3: comments without a post -/

theorem toComment_inRange {c : Record} {comment : Comment}
    (h : toComment c = some comment) : minInt ≤ comment.PostID ∧ comment.PostID ≤ maxInt := by
  obtain ⟨x, _, _, _, _, _, hpid, _⟩ := toComment_some h
  rw [hpid]
  exact goInt_inRange x

theorem findPostByID_some_some {posts : List Record} {id : Int} {post : Post}
    (hr : minInt ≤ id ∧ id ≤ maxInt)
    (h : findPostByID posts id = some (some post)) :
    post.ID = id ∧ ∃ p ∈ posts, assertFloat64 (p.get "id") = some (id : ℚ) ∧
      toPost p = some post := by
  rw [findPostByID_eq_scan] at h
  obtain ⟨p, hp, hid, hconv⟩ := scanByID_some_some h
  obtain ⟨u, x, _, hx, _, _, _, hpid⟩ := toPost_some hconv
  refine ⟨?_, p, hp, hid, hconv⟩
  rw [hid] at hx
  rw [hpid, ← Option.some.inj hx, goInt_intCast id hr]

theorem getCommentsForPost_skip {C : Record} {x : ℚ} {id : Int}
    (hC : assertFloat64 (C.get "postId") = some x) (hne : x ≠ (id : ℚ))
    (post : List Record) :
    ∀ pre : List Record,
      getCommentsForPost (pre ++ C :: post) id = getCommentsForPost (pre ++ post) id := by
  intro pre
  induction pre with
  | nil =>
    have hne2 : ¬ x = goFloat64 id := hne
    simp only [List.nil_append]
    rw [getCommentsForPost_cons]
    simp only [hC, hne2, if_false]
  | cons d rest ih =>
    simp only [List.cons_append]
    rw [getCommentsForPost_cons, getCommentsForPost_cons d, ih]

theorem combineStep_skip_congr {C : Record} {x : ℚ} {posts : List Record}
    (hC : assertFloat64 (C.get "postId") = some x)
    (hno : ∀ p ∈ posts, assertFloat64 (p.get "id") ≠ some x)
    (pre post users : List Record) (c : Record) :
    combineStep (pre ++ C :: post) posts users c = combineStep (pre ++ post) posts users c := by
  rw [combineStep_eq, combineStep_eq]
  cases hcm : toComment c with
  | none => rfl
  | some comment =>
    cases hp : findPostByID posts comment.PostID with
    | none => simp only [hp]
    | some o =>
      cases o with
      | none => simp only [hp]
      | some matched =>
        obtain ⟨hid, p, hpm, hpi, _⟩ := findPostByID_some_some (toComment_inRange hcm) hp
        have hne : x ≠ (matched.ID : ℚ) := by
          intro hcontra
          apply hno p hpm
          rw [hpi, hcontra, hid]
        simp only [hp, getCommentsForPost_skip hC hne post pre]

theorem emitted_congr {comments other posts users : List Record} :
    ∀ {todo : List Record},
      (∀ c ∈ todo, combineStep comments posts users c = combineStep other posts users c) →
      emitted comments posts users todo = emitted other posts users todo := by
  intro todo
  induction todo with
  | nil => intro _; rfl
  | cons d rest ih =>
    intro h
    unfold emitted
    rw [h d (List.mem_cons_self _ _), ih (fun c hc => h c (List.mem_cons_of_mem _ hc))]

theorem emitted_skip {comments posts users : List Record} {C : Record}
    (hC : combineStep comments posts users C = some none) (post : List Record) :
    ∀ pre : List Record,
      emitted comments posts users (pre ++ C :: post) =
        emitted comments posts users (pre ++ post) := by
  intro pre
  induction pre with
  | nil =>
    simp only [List.nil_append]
    rw [emitted, hC]
  | cons d rest ih =>
    simp only [List.cons_append]
    rw [emitted, emitted, ih]

theorem wellTypedPost_id {p : Record} (h : wellTypedPost p = true) :
    ∃ y, assertFloat64 (p.get "id") = some y := by
  cases hy : assertFloat64 (p.get "id") with
  | none => simp [wellTypedPost, hy] at h
  | some y => exact ⟨y, rfl⟩

/-- C3, as stated, fails.  The comment with `postId` `1.5` is well typed and equals the `id`
of no post, yet a record is emitted for it, so removing it changes the result.  So does
the comment with the integer-valued `postId` `1e19` when a post has the minimum `int` as
`id`: `int(1e19)` is that minimum, and the comment is joined to that post. -/
theorem unmatched_comment_counterexample :
    ((wellTypedComment (mkComment 1.5 1 "a" "hi") = true ∧
        wellTypedPost (mkPost 10 1 "Post One" "...") = true ∧
        wellTypedUser (mkUser 10 "alice") = true ∧
        hasMatchingPost [mkPost 10 1 "Post One" "..."] (mkComment 1.5 1 "a" "hi") = false) ∧
      join ([] ++ mkComment 1.5 1 "a" "hi" :: []) [mkPost 10 1 "Post One" "..."]
          [mkUser 10 "alice"] = some [⟨1, "Post One", 0, "alice", "hi"⟩] ∧
      join ([] ++ []) [mkPost 10 1 "Post One" "..."] [mkUser 10 "alice"] = some []) ∧
    ((wellTypedComment (mkComment oneE19 1 "a" "hi") = true ∧
        integerPostId (mkComment oneE19 1 "a" "hi") = true ∧
        wellTypedPost (mkPost 10 minIntNumber "Min" "x") = true ∧
        wellTypedUser (mkUser 10 "alice") = true ∧
        hasMatchingPost [mkPost 10 minIntNumber "Min" "x"] (mkComment oneE19 1 "a" "hi") =
          false) ∧
      join ([] ++ mkComment oneE19 1 "a" "hi" :: []) [mkPost 10 minIntNumber "Min" "x"]
          [mkUser 10 "alice"] = some [⟨minInt, "Min", 0, "alice", "hi"⟩] ∧
      join ([] ++ []) [mkPost 10 minIntNumber "Min" "x"] [mkUser 10 "alice"] = some []) := by
  decide!

/-- C3 (amended): a well-typed comment `C` whose `postId` is the value of an `int`
(integer-valued, from `-2^63` to `2^63 - 1`) and equals the `id` of no post produces no
record and does not make the join fail, provided the posts are well typed: the join's
result on the comments collection with `C` is its result on the collection with `C`
removed. -/
theorem unmatched_comment_dropped (pre post posts users : List Record) (C : Record)
    (hC : wellTypedComment C = true) (hint : postIdIsInt C = true)
    (hposts : ∀ p ∈ posts, wellTypedPost p = true)
    (hno : hasMatchingPost posts C = false) :
    join (pre ++ C :: post) posts users = join (pre ++ post) posts users := by
  cases hc : toComment C with
  | none =>
    rw [toComment_eq_none_iff] at hc
    rw [hc] at hC
    cases hC
  | some comment =>
    obtain ⟨x, i, hx, _, _, _, hpid, _⟩ := toComment_some hc
    have hden : representableAsInt x = true := by simpa [postIdIsInt, hx] using hint
    have hnone : ∀ p ∈ posts, assertFloat64 (p.get "id") ≠ some x := by
      simp only [hasMatchingPost, hx] at hno
      exact hasWithId_eq_false.mp hno
    have hfind : findPostByID posts comment.PostID = some none := by
      rw [findPostByID_eq_scan]
      apply scanByID_no_match
      intro p hp
      obtain ⟨y, hy⟩ := wellTypedPost_id (hposts p hp)
      refine ⟨y, hy, ?_⟩
      intro hcontra
      apply hnone p hp
      rw [hy, hcontra, hpid, goInt_cast_of_int hden]
    have hstep : combineStep (pre ++ post) posts users C = some none := by
      rw [combineStep_eq]
      simp only [hc, hfind]
    rw [join_eq_emitted, join_eq_emitted,
      emitted_congr (fun c _ => combineStep_skip_congr hx hnone pre post users c),
      emitted_skip hstep]

theorem unmatched_comment_dropped_witness :
    (wellTypedComment (mkComment 2 3 "c" "sup") = true ∧
      postIdIsInt (mkComment 2 3 "c" "sup") = true ∧
      (∀ p ∈ scenarioPosts, wellTypedPost p = true) ∧
      hasMatchingPost scenarioPosts (mkComment 2 3 "c" "sup") = false) ∧
    join ([mkComment 1 1 "a" "hi", mkComment 1 2 "b" "yo"] ++ mkComment 2 3 "c" "sup" :: [])
        scenarioPosts scenarioUsers =
      join ([mkComment 1 1 "a" "hi", mkComment 1 2 "b" "yo"] ++ []) scenarioPosts
        scenarioUsers :=
  ⟨⟨by decide, by decide, by decide, by decide⟩,
    unmatched_comment_dropped [mkComment 1 1 "a" "hi", mkComment 1 2 "b" "yo"] []
      scenarioPosts scenarioUsers (mkComment 2 3 "c" "sup")
      (by decide) (by decide) (by decide) (by decide)⟩

/-! ## C4, C5: first match wins -/

theorem scanByID_first_match {α : Type} (conv : Record → Option α) {id : Int}
    {pre : List Record} {r : Record} (rest : List Record)
    (hpre : ∀ q ∈ pre, assertFloat64 (q.get "id") ≠ some (id : ℚ))
    (hr : assertFloat64 (r.get "id") = some (id : ℚ)) :
    scanByID conv (pre ++ r :: rest) id =
      if pre.all (fun q => (assertFloat64 (q.get "id")).isSome) then (conv r).map some
      else none := by
  rw [scanByID_append conv (r :: rest) hpre, scanByID_cons_match conv rest hr]

theorem combineStep_of_parts {comments posts users : List Record} {c : Record}
    {comment : Comment} {post : Post} {u : User} {l : List Comment}
    (hc : toComment c = some comment)
    (hp : findPostByID posts comment.PostID = some (some post))
    (hu : findUserByID users post.UserID = some (some u))
    (hg : getCommentsForPost comments post.ID = some l) :
    combineStep comments posts users c =
      some (some { postId := post.ID, postName := post.Title,
                   commentsCount := (l.length : Int),
                   userName := u.Username, body := comment.Body }) := by
  rw [combineStep_eq]
  simp only [hc, hp, hu, hg]

/-- C4, as stated, fails.  The comment's `postId` `1.5` equals the `id` of the second post
only, yet `int(1.5) = 1` selects the first post, whose `id`, title and user the record
carries.  The integer-valued `postId` `1e19` equals the `id` of the first post, yet
`int(1e19)`, the minimum `int`, selects the second post. -/
theorem post_first_match_counterexample :
    ((assertFloat64 ((mkComment 1.5 1 "a" "hi").get "postId") = some 1.5 ∧
        (∀ q ∈ [mkPost 10 1 "First" "x"], assertFloat64 (q.get "id") ≠ some 1.5) ∧
        assertFloat64 ((mkPost 20 1.5 "Second" "y").get "id") = some 1.5) ∧
      join [mkComment 1.5 1 "a" "hi"]
          ([mkPost 10 1 "First" "x"] ++ mkPost 20 1.5 "Second" "y" :: [])
          [mkUser 10 "alice", mkUser 20 "bob"] = some [⟨1, "First", 0, "alice", "hi"⟩] ∧
      assertString ((mkPost 20 1.5 "Second" "y").get "title") = some "Second" ∧
      findUserByID [mkUser 10 "alice", mkUser 20 "bob"] 20 = some (some ⟨20, "bob"⟩)) ∧
    ((assertFloat64 ((mkComment oneE19 1 "a" "hi").get "postId") = some oneE19 ∧
        integerPostId (mkComment oneE19 1 "a" "hi") = true ∧
        (∀ q ∈ ([] : List Record), assertFloat64 (q.get "id") ≠ some oneE19) ∧
        assertFloat64 ((mkPost 10 oneE19 "Big" "x").get "id") = some oneE19) ∧
      join [mkComment oneE19 1 "a" "hi"]
          ([] ++ mkPost 10 oneE19 "Big" "x" :: [mkPost 20 minIntNumber "Min" "y"])
          [mkUser 10 "alice", mkUser 20 "bob"] =
        some [⟨minInt, "Min", 0, "bob", "hi"⟩] ∧
      assertString ((mkPost 10 oneE19 "Big" "x").get "title") = some "Big") := by
  decide!

/-- C4 (amended): post lookup is first-match-wins for a comment whose `postId` is the value
of an `int` (integer-valued, from `-2^63` to `2^63 - 1`).  If `p` is the earliest post
whose `id` equals the comment's `postId`, the record emitted for the comment takes `postId`
and `postName` from the `id` and `title` of `p`, its `userName` comes from the user lookup
with `p`'s `userId`, and the posts after `p` never influence the record. -/
theorem post_lookup_first_match (comments pre rest users : List Record) (p c : Record)
    (x : ℚ) (r : CombinedRecord)
    (hc : assertFloat64 (c.get "postId") = some x) (hint : representableAsInt x = true)
    (hpre : ∀ q ∈ pre, assertFloat64 (q.get "id") ≠ some x)
    (hp : assertFloat64 (p.get "id") = some x)
    (hr : combineStep comments (pre ++ p :: rest) users c = some (some r)) :
    assertFloat64 (p.get "id") = some (r.postId : ℚ) ∧
    assertString (p.get "title") = some r.postName ∧
    (∃ uid u, assertFloat64 (p.get "userId") = some uid ∧
      findUserByID users (goInt uid) = some (some u) ∧ r.userName = u.Username) ∧
    (∀ later, combineStep comments (pre ++ p :: later) users c = some (some r)) := by
  obtain ⟨comment, post, u, l, hcm, hfind, hu, hg, rfl⟩ := combineStep_some_some hr
  obtain ⟨x0, i, hx0, _, _, _, hpid, _⟩ := toComment_some hcm
  rw [hc] at hx0
  have hxx : x0 = x := (Option.some.inj hx0).symm
  subst hxx
  have hcast : ((comment.PostID : Int) : ℚ) = x0 := by
    rw [hpid]; exact goInt_cast_of_int hint
  have hpre2 : ∀ q ∈ pre, assertFloat64 (q.get "id") ≠ some ((comment.PostID : Int) : ℚ) := by
    rw [hcast]; exact hpre
  have hp2 : assertFloat64 (p.get "id") = some ((comment.PostID : Int) : ℚ) := by
    rw [hcast]; exact hp
  have hscan := fun later => scanByID_first_match toPost later hpre2 hp2
  rw [findPostByID_eq_scan, hscan rest] at hfind
  by_cases hall : pre.all (fun q => (assertFloat64 (q.get "id")).isSome) = true
  · simp only [hall, if_true] at hfind
    cases hpost : toPost p with
    | none => simp [hpost] at hfind
    | some post0 =>
      simp [hpost] at hfind
      subst hfind
      obtain ⟨uid, y, huid, hy, ht, _, hU, hI⟩ := toPost_some hpost
      refine ⟨?_, ht, ⟨uid, u, huid, ?_, rfl⟩, ?_⟩
      · rw [hp2] at hy
        have hyy : y = ((comment.PostID : Int) : ℚ) := (Option.some.inj hy).symm
        show assertFloat64 (p.get "id") = some ((post0.ID : Int) : ℚ)
        rw [hI, hyy, goInt_intCast _ (toComment_inRange hcm), hp2]
      · rw [← hU]; exact hu
      · intro later
        apply combineStep_of_parts hcm _ hu hg
        rw [findPostByID_eq_scan, hscan later]
        simp only [hall, if_true, hpost, Option.map_some']
  · simp only [hall] at hfind
    simp at hfind

theorem post_lookup_first_match_witness :
    (assertFloat64 ((mkComment 1 1 "a" "hi").get "postId") = some 1 ∧
      representableAsInt 1 = true ∧
      (∀ q ∈ [mkPost 20 2 "Other" "x"], assertFloat64 (q.get "id") ≠ some 1) ∧
      assertFloat64 ((mkPost 10 1 "First" "y").get "id") = some 1 ∧
      combineStep [mkComment 1 1 "a" "hi"]
          ([mkPost 20 2 "Other" "x"] ++ mkPost 10 1 "First" "y" :: [mkPost 20 1 "Late" "z"])
          [mkUser 10 "alice", mkUser 20 "bob"] (mkComment 1 1 "a" "hi") =
        some (some ⟨1, "First", 1, "alice", "hi"⟩)) ∧
    (assertFloat64 ((mkPost 10 1 "First" "y").get "id") = some (((1 : Int)) : ℚ) ∧
      assertString ((mkPost 10 1 "First" "y").get "title") = some "First" ∧
      (∃ uid u, assertFloat64 ((mkPost 10 1 "First" "y").get "userId") = some uid ∧
        findUserByID [mkUser 10 "alice", mkUser 20 "bob"] (goInt uid) = some (some u) ∧
        "alice" = u.Username) ∧
      (∀ later, combineStep [mkComment 1 1 "a" "hi"]
          ([mkPost 20 2 "Other" "x"] ++ mkPost 10 1 "First" "y" :: later)
          [mkUser 10 "alice", mkUser 20 "bob"] (mkComment 1 1 "a" "hi") =
        some (some ⟨1, "First", 1, "alice", "hi"⟩))) :=
  ⟨⟨by decide, by decide, by decide, by decide, by decide⟩,
    post_lookup_first_match [mkComment 1 1 "a" "hi"] [mkPost 20 2 "Other" "x"]
      [mkPost 20 1 "Late" "z"] [mkUser 10 "alice", mkUser 20 "bob"]
      (mkPost 10 1 "First" "y") (mkComment 1 1 "a" "hi") 1 ⟨1, "First", 1, "alice", "hi"⟩
      (by decide) (by decide) (by decide) (by decide) (by decide)⟩

theorem findPostByID_first_match {id : Int} {pre : List Record} {p : Record}
    (rest : List Record)
    (hpre : ∀ q ∈ pre, assertFloat64 (q.get "id") ≠ some (id : ℚ))
    (hp : assertFloat64 (p.get "id") = some (id : ℚ)) :
    findPostByID (pre ++ p :: rest) id =
      if pre.all (fun q => (assertFloat64 (q.get "id")).isSome) then (toPost p).map some
      else none := by
  rw [findPostByID_eq_scan, scanByID_first_match toPost rest hpre hp]

theorem findUserByID_first_match {id : Int} {pre : List Record} {u : Record}
    (rest : List Record)
    (hpre : ∀ q ∈ pre, assertFloat64 (q.get "id") ≠ some (id : ℚ))
    (hu : assertFloat64 (u.get "id") = some (id : ℚ)) :
    findUserByID (pre ++ u :: rest) id =
      if pre.all (fun q => (assertFloat64 (q.get "id")).isSome) then (toUser u).map some
      else none := by
  rw [findUserByID_eq_scan, scanByID_first_match toUser rest hpre hu]

theorem first_match_some {α : Type} {pre : List Record} {o : Option α} {a : α}
    (h : (if pre.all (fun q => (assertFloat64 (q.get "id")).isSome) then o.map some
      else none) = some (some a)) :
    pre.all (fun q => (assertFloat64 (q.get "id")).isSome) = true ∧ o = some a := by
  by_cases hall : pre.all (fun q => (assertFloat64 (q.get "id")).isSome) = true
  · simp only [hall, if_true] at h
    cases o with
    | none => simp at h
    | some b =>
      simp at h
      exact ⟨hall, by rw [h]⟩
  · simp only [hall] at h
    simp at h

/-- C5, as stated, fails.  The matched post's `userId` `10.5` equals the `id` of the second
user only, yet `int(10.5) = 10` selects the first user, whose username the record carries.
The integer-valued `userId` `1e19` equals the `id` of the first user, yet `int(1e19)`, the
minimum `int`, selects the second user. -/
theorem user_first_match_counterexample :
    ((assertFloat64 ((mkPost 10.5 1 "T" "b").get "userId") = some 10.5 ∧
        (∀ q ∈ [mkUser 10 "alice"], assertFloat64 (q.get "id") ≠ some 10.5) ∧
        assertFloat64 ((mkUser 10.5 "bob").get "id") = some 10.5) ∧
      join [mkComment 1 1 "a" "hi"] [mkPost 10.5 1 "T" "b"]
          ([mkUser 10 "alice"] ++ mkUser 10.5 "bob" :: []) =
        some [⟨1, "T", 1, "alice", "hi"⟩] ∧
      assertString ((mkUser 10.5 "bob").get "username") = some "bob") ∧
    ((assertFloat64 ((mkPost oneE19 1 "T" "b").get "userId") = some oneE19 ∧
        integerUserId (mkPost oneE19 1 "T" "b") = true ∧
        (∀ q ∈ ([] : List Record), assertFloat64 (q.get "id") ≠ some oneE19) ∧
        assertFloat64 ((mkUser oneE19 "big").get "id") = some oneE19) ∧
      join [mkComment 1 1 "a" "hi"] [mkPost oneE19 1 "T" "b"]
          ([] ++ mkUser oneE19 "big" :: [mkUser minIntNumber "min"]) =
        some [⟨1, "T", 1, "min", "hi"⟩] ∧
      assertString ((mkUser oneE19 "big").get "username") = some "big") := by
  decide!

/-- C5 (amended): user lookup is first-match-wins when the matched post's `userId` is the
value of an `int` (integer-valued, from `-2^63` to `2^63 - 1`).  If `p` is the post matched
for the comment (the earliest post whose `id` equals `float64(int(postId))`) and `u` is the
earliest user whose `id` equals `p`'s `userId`, the record emitted for the comment carries
the username of `u`, and the users after `u` never influence the record. -/
theorem user_lookup_first_match (comments ppre prest upre urest : List Record)
    (p u c : Record) (x y : ℚ) (r : CombinedRecord)
    (hc : assertFloat64 (c.get "postId") = some x)
    (hppre : ∀ q ∈ ppre, assertFloat64 (q.get "id") ≠ some (goFloat64 (goInt x)))
    (hp : assertFloat64 (p.get "id") = some (goFloat64 (goInt x)))
    (hy : assertFloat64 (p.get "userId") = some y) (hyint : representableAsInt y = true)
    (hupre : ∀ q ∈ upre, assertFloat64 (q.get "id") ≠ some y)
    (hu : assertFloat64 (u.get "id") = some y)
    (hr : combineStep comments (ppre ++ p :: prest) (upre ++ u :: urest) c =
      some (some r)) :
    assertString (u.get "username") = some r.userName ∧
    (∀ later, combineStep comments (ppre ++ p :: prest) (upre ++ u :: later) c =
      some (some r)) := by
  obtain ⟨comment, post, usr, l, hcm, hfind, husr, hg, rfl⟩ := combineStep_some_some hr
  obtain ⟨x0, i, hx0, _, _, _, hpid, _⟩ := toComment_some hcm
  rw [hc] at hx0
  have hxx : x0 = x := (Option.some.inj hx0).symm
  subst hxx
  rw [hpid, findPostByID_first_match prest hppre hp] at hfind
  obtain ⟨_, hpost⟩ := first_match_some hfind
  obtain ⟨uid, _, huid, _, _, _, hU, _⟩ := toPost_some hpost
  rw [hy] at huid
  have huy : uid = y := (Option.some.inj huid).symm
  subst huy
  have hcast : ((post.UserID : Int) : ℚ) = uid := by
    rw [hU]; exact goInt_cast_of_int hyint
  have hupre2 : ∀ q ∈ upre, assertFloat64 (q.get "id") ≠ some ((post.UserID : Int) : ℚ) := by
    rw [hcast]; exact hupre
  have hu2 : assertFloat64 (u.get "id") = some ((post.UserID : Int) : ℚ) := by
    rw [hcast]; exact hu
  rw [findUserByID_first_match urest hupre2 hu2] at husr
  obtain ⟨hall, huser⟩ := first_match_some husr
  obtain ⟨_, _, hname, _⟩ := toUser_some huser
  refine ⟨hname, ?_⟩
  intro later
  apply combineStep_of_parts hcm _ _ hg
  · rw [hpid, findPostByID_first_match prest hppre hp]
    exact hfind
  · rw [findUserByID_first_match later hupre2 hu2]
    simp only [hall, if_true, huser, Option.map_some']

theorem user_lookup_first_match_witness :
    (assertFloat64 ((mkComment 1 1 "a" "hi").get "postId") = some 1 ∧
      (∀ q ∈ ([] : List Record), assertFloat64 (q.get "id") ≠ some (goFloat64 (goInt 1))) ∧
      assertFloat64 ((mkPost 10 1 "T" "b").get "id") = some (goFloat64 (goInt 1)) ∧
      assertFloat64 ((mkPost 10 1 "T" "b").get "userId") = some 10 ∧
      representableAsInt 10 = true ∧
      (∀ q ∈ [mkUser 20 "bob"], assertFloat64 (q.get "id") ≠ some 10) ∧
      assertFloat64 ((mkUser 10 "alice").get "id") = some 10 ∧
      combineStep [mkComment 1 1 "a" "hi"] ([] ++ mkPost 10 1 "T" "b" :: [])
          ([mkUser 20 "bob"] ++ mkUser 10 "alice" :: [mkUser 10 "carol"])
          (mkComment 1 1 "a" "hi") = some (some ⟨1, "T", 1, "alice", "hi"⟩)) ∧
    (assertString ((mkUser 10 "alice").get "username") = some "alice" ∧
      (∀ later, combineStep [mkComment 1 1 "a" "hi"] ([] ++ mkPost 10 1 "T" "b" :: [])
          ([mkUser 20 "bob"] ++ mkUser 10 "alice" :: later) (mkComment 1 1 "a" "hi") =
        some (some ⟨1, "T", 1, "alice", "hi"⟩))) :=
  ⟨⟨by decide, by decide, by decide, by decide, by decide, by decide, by decide, by decide⟩,
    user_lookup_first_match [mkComment 1 1 "a" "hi"] [] [] [mkUser 20 "bob"]
      [mkUser 10 "carol"] (mkPost 10 1 "T" "b") (mkUser 10 "alice") (mkComment 1 1 "a" "hi")
      1 10 ⟨1, "T", 1, "alice", "hi"⟩
      (by decide) (by decide) (by decide) (by decide) (by decide) (by decide) (by decide)
      (by decide)⟩

/-! ## C6: a matched post without a user -/

theorem join_none_of_step_none {comments posts users : List Record} {c : Record}
    (hmem : c ∈ comments) (hstep : combineStep comments posts users c = none) :
    join comments posts users = none := by
  rw [join_eq_emitted]
  exact emitted_none_of_step_none hstep hmem

/-- C6, as stated, fails.  The matched post's `userId` `10.5` equals the `id` of no user,
yet `int(10.5) = 10` finds the user with `id` `10` and the join succeeds.  The
integer-valued `userId` `1e19` equals the `id` of no user, yet `int(1e19)`, the minimum
`int`, finds the user whose `id` is that minimum and the join succeeds. -/
theorem missing_user_counterexample :
    ((hasMatchingPost [mkPost 10.5 1 "T" "b"] (mkComment 1 1 "a" "hi") = true ∧
        assertFloat64 ((mkPost 10.5 1 "T" "b").get "userId") = some 10.5 ∧
        hasWithId [mkUser 10 "alice"] 10.5 = false) ∧
      join [mkComment 1 1 "a" "hi"] [mkPost 10.5 1 "T" "b"] [mkUser 10 "alice"] =
        some [⟨1, "T", 1, "alice", "hi"⟩]) ∧
    ((hasMatchingPost [mkPost oneE19 1 "T" "b"] (mkComment 1 1 "a" "hi") = true ∧
        assertFloat64 ((mkPost oneE19 1 "T" "b").get "userId") = some oneE19 ∧
        integerUserId (mkPost oneE19 1 "T" "b") = true ∧
        hasWithId [mkUser minIntNumber "min"] oneE19 = false) ∧
      join [mkComment 1 1 "a" "hi"] [mkPost oneE19 1 "T" "b"] [mkUser minIntNumber "min"] =
        some [⟨1, "T", 1, "min", "hi"⟩]) := by
  decide!

/-- C6 (amended): if some comment has a `postId` that is the value of an `int`
(integer-valued, from `-2^63` to `2^63 - 1`), and the earliest post whose `id` equals that
`postId` has a `userId` that is the value of an `int` and equals the `id` of no user, the
join fails as a whole: no output sequence is produced. -/
theorem join_fails_without_user (comments ppre prest users : List Record) (p c : Record)
    (x y : ℚ) (hmem : c ∈ comments)
    (hc : assertFloat64 (c.get "postId") = some x) (hint : representableAsInt x = true)
    (hppre : ∀ q ∈ ppre, assertFloat64 (q.get "id") ≠ some x)
    (hp : assertFloat64 (p.get "id") = some x)
    (hy : assertFloat64 (p.get "userId") = some y) (hyint : representableAsInt y = true)
    (hno : hasWithId users y = false) :
    join comments (ppre ++ p :: prest) users = none := by
  apply join_none_of_step_none hmem
  have hcast : ((goInt x : Int) : ℚ) = x := goInt_cast_of_int hint
  have hppre2 : ∀ q ∈ ppre, assertFloat64 (q.get "id") ≠ some ((goInt x : Int) : ℚ) := by
    rw [hcast]; exact hppre
  have hp2 : assertFloat64 (p.get "id") = some ((goInt x : Int) : ℚ) := by
    rw [hcast]; exact hp
  cases hstep : combineStep comments (ppre ++ p :: prest) users c with
  | none => rfl
  | some o =>
    exfalso
    cases o with
    | none =>
      obtain ⟨comment, hcm, hfind⟩ := combineStep_some_none hstep
      obtain ⟨x0, i, hx0, _, _, _, hpid, _⟩ := toComment_some hcm
      rw [hc] at hx0
      have hxx : x0 = x := (Option.some.inj hx0).symm
      subst hxx
      rw [findPostByID_eq_scan] at hfind
      apply scanByID_some_none hfind p (by simp)
      rw [hpid]; exact hp2
    | some r =>
      obtain ⟨comment, post, usr, l, hcm, hfind, husr, _, _⟩ := combineStep_some_some hstep
      obtain ⟨x0, i, hx0, _, _, _, hpid, _⟩ := toComment_some hcm
      rw [hc] at hx0
      have hxx : x0 = x := (Option.some.inj hx0).symm
      subst hxx
      rw [hpid, findPostByID_first_match prest hppre2 hp2] at hfind
      obtain ⟨_, hpost⟩ := first_match_some hfind
      obtain ⟨uid, _, huid, _, _, _, hU, _⟩ := toPost_some hpost
      rw [hy] at huid
      have huy : uid = y := (Option.some.inj huid).symm
      subst huy
      rw [findUserByID_eq_scan] at husr
      obtain ⟨u, hu, hid, _⟩ := scanByID_some_some husr
      rw [hU, goInt_cast_of_int hyint] at hid
      exact hasWithId_eq_false.mp hno u hu hid

theorem join_fails_without_user_witness :
    (mkComment 1 2 "b" "yo" ∈ [mkComment 2 1 "a" "hi", mkComment 1 2 "b" "yo"] ∧
      assertFloat64 ((mkComment 1 2 "b" "yo").get "postId") = some 1 ∧
      representableAsInt 1 = true ∧
      (∀ q ∈ [mkPost 10 2 "Other" "x"], assertFloat64 (q.get "id") ≠ some 1) ∧
      assertFloat64 ((mkPost 99 1 "T" "b").get "id") = some 1 ∧
      assertFloat64 ((mkPost 99 1 "T" "b").get "userId") = some 99 ∧
      representableAsInt 99 = true ∧
      hasWithId [mkUser 10 "alice"] 99 = false) ∧
    join [mkComment 2 1 "a" "hi", mkComment 1 2 "b" "yo"]
      ([mkPost 10 2 "Other" "x"] ++ mkPost 99 1 "T" "b" :: []) [mkUser 10 "alice"] = none :=
  ⟨⟨by simp, by decide, by decide, by decide, by decide, by decide, by decide, by decide⟩,
    join_fails_without_user [mkComment 2 1 "a" "hi", mkComment 1 2 "b" "yo"]
      [mkPost 10 2 "Other" "x"] [] [mkUser 10 "alice"] (mkPost 99 1 "T" "b")
      (mkComment 1 2 "b" "yo") 1 99
      (by simp) (by decide) (by decide) (by decide) (by decide) (by decide) (by decide)
      (by decide)⟩

/-! ## C7: malformed comments -/

/-- C7: if some comment record is malformed (`postId` or `id` absent or not numeric, `name`
or `body` absent or not a string), the join fails as a whole, whatever the comment's
`postId` and position. -/
theorem malformed_comment_fails (comments posts users : List Record)
    (h : ∃ c ∈ comments, wellTypedComment c = false) :
    join comments posts users = none := by
  obtain ⟨c, hmem, hbad⟩ := h
  apply join_none_of_step_none hmem
  rw [combineStep_eq, (toComment_eq_none_iff c).mpr hbad]

theorem malformed_comment_fails_witness :
    (∃ c ∈ [mkComment 1 1 "a" "hi", [("postId", Value.num 7), ("id", Value.str "3"),
        ("name", Value.str "c"), ("body", Value.str "sup")]],
      wellTypedComment c = false) ∧
    join [mkComment 1 1 "a" "hi", [("postId", Value.num 7), ("id", Value.str "3"),
        ("name", Value.str "c"), ("body", Value.str "sup")]] scenarioPosts scenarioUsers =
      none :=
  ⟨⟨_, List.mem_cons_of_mem _ (List.mem_cons_self _ _), by decide⟩,
    malformed_comment_fails _ scenarioPosts scenarioUsers
      ⟨_, List.mem_cons_of_mem _ (List.mem_cons_self _ _), by decide⟩⟩

/-! ## C8: malformed posts and users -/

theorem scanByID_reaches_malformed {α : Type} {conv : Record → Option α} {id : Int}
    {pre : List Record} {r : Record} (rest : List Record)
    (hpre : ∀ q ∈ pre, assertFloat64 (q.get "id") ≠ some (id : ℚ))
    (hr : assertFloat64 (r.get "id") = none ∨ assertFloat64 (r.get "id") = some (id : ℚ))
    (hconv : conv r = none) :
    scanByID conv (pre ++ r :: rest) id = none := by
  rw [scanByID_append conv (r :: rest) hpre]
  have htail : scanByID conv (r :: rest) id = none := by
    rcases hr with hnone | hsome
    · simp [scanByID, hnone]
    · rw [scanByID_cons_match conv rest hsome, hconv]
      rfl
  rw [htail]
  simp

theorem combineStep_none_of_post_panic {comments posts users : List Record} {c : Record}
    {x : ℚ} (hc : assertFloat64 (c.get "postId") = some x)
    (hfind : findPostByID posts (goInt x) = none) :
    combineStep comments posts users c = none := by
  rw [combineStep_eq]
  cases hcm : toComment c with
  | none => rfl
  | some comment =>
    obtain ⟨x0, i, hx0, _, _, _, hpid, _⟩ := toComment_some hcm
    rw [hc] at hx0
    have hxx : x0 = x := (Option.some.inj hx0).symm
    subst hxx
    simp only [hpid, hfind]

theorem combineStep_none_of_user_panic {comments posts users : List Record} {c : Record}
    {x : ℚ} {post : Post} (hc : assertFloat64 (c.get "postId") = some x)
    (hfind : findPostByID posts (goInt x) = some (some post))
    (huser : findUserByID users post.UserID = none) :
    combineStep comments posts users c = none := by
  rw [combineStep_eq]
  cases hcm : toComment c with
  | none => rfl
  | some comment =>
    obtain ⟨x0, i, hx0, _, _, _, hpid, _⟩ := toComment_some hcm
    rw [hc] at hx0
    have hxx : x0 = x := (Option.some.inj hx0).symm
    subst hxx
    simp only [hpid, hfind, huser]

/-- C8, as stated, fails: a malformed post and a malformed user that no lookup reaches (they
follow the matching records) leave the join successful, with its full result. -/
theorem malformed_record_counterexample :
    (wellTypedPost [("id", Value.str "2")] = false ∧
      wellTypedUser [("id", Value.num 11)] = false) ∧
    join [mkComment 1 1 "a" "hi"] [mkPost 10 1 "T" "b", [("id", Value.str "2")]]
        [mkUser 10 "alice", [("id", Value.num 11)]] =
      some [⟨1, "T", 1, "alice", "hi"⟩] := by
  decide

/-- C8 (amended): a malformed post or user record makes the join fail when a lookup reaches
it.  For a comment with numeric `postId` `x`: if no post before the record `bad` has an `id`
equal to `int(x)`, and `bad` is a malformed post whose `id` is absent, not numeric or equal
to `int(x)`, the join fails; likewise if the comment's post lookup returns `post`, no user
before `bad` has an `id` equal to `post.UserID`, and `bad` is a malformed user whose `id` is
absent, not numeric or equal to `post.UserID`. -/
theorem malformed_record_fatal_when_reached (comments posts users pre rest : List Record)
    (c bad : Record) (x : ℚ) (hmem : c ∈ comments)
    (hc : assertFloat64 (c.get "postId") = some x)
    (h : (posts = pre ++ bad :: rest ∧
          (∀ q ∈ pre, assertFloat64 (q.get "id") ≠ some (goFloat64 (goInt x))) ∧
          (assertFloat64 (bad.get "id") = none ∨
            assertFloat64 (bad.get "id") = some (goFloat64 (goInt x))) ∧
          wellTypedPost bad = false) ∨
        (∃ post, findPostByID posts (goInt x) = some (some post) ∧
          users = pre ++ bad :: rest ∧
          (∀ q ∈ pre, assertFloat64 (q.get "id") ≠ some (goFloat64 post.UserID)) ∧
          (assertFloat64 (bad.get "id") = none ∨
            assertFloat64 (bad.get "id") = some (goFloat64 post.UserID)) ∧
          wellTypedUser bad = false)) :
    join comments posts users = none := by
  apply join_none_of_step_none hmem
  rcases h with ⟨hposts, hpre, hbad, hwt⟩ | ⟨post, hfind, husers, hpre, hbad, hwt⟩
  · apply combineStep_none_of_post_panic hc
    rw [hposts, findPostByID_eq_scan]
    exact scanByID_reaches_malformed rest hpre hbad ((toPost_eq_none_iff bad).mpr hwt)
  · apply combineStep_none_of_user_panic hc hfind
    rw [husers, findUserByID_eq_scan]
    exact scanByID_reaches_malformed rest hpre hbad ((toUser_eq_none_iff bad).mpr hwt)

theorem malformed_record_fatal_when_reached_witness :
    (mkComment 2 1 "a" "hi" ∈ [mkComment 2 1 "a" "hi"] ∧
      assertFloat64 ((mkComment 2 1 "a" "hi").get "postId") = some 2 ∧
      [mkPost 10 1 "T" "b", [("id", Value.str "2")]] =
        [mkPost 10 1 "T" "b"] ++ [("id", Value.str "2")] :: [] ∧
      (∀ q ∈ [mkPost 10 1 "T" "b"],
        assertFloat64 (q.get "id") ≠ some (goFloat64 (goInt 2))) ∧
      (assertFloat64 (Record.get [("id", Value.str "2")] "id") = none ∨
        assertFloat64 (Record.get [("id", Value.str "2")] "id") =
          some (goFloat64 (goInt 2))) ∧
      wellTypedPost [("id", Value.str "2")] = false) ∧
    join [mkComment 2 1 "a" "hi"] [mkPost 10 1 "T" "b", [("id", Value.str "2")]]
      [mkUser 10 "alice"] = none :=
  ⟨⟨by simp, by decide, rfl, by decide, by decide, by decide⟩,
    malformed_record_fatal_when_reached [mkComment 2 1 "a" "hi"]
      [mkPost 10 1 "T" "b", [("id", Value.str "2")]] [mkUser 10 "alice"]
      [mkPost 10 1 "T" "b"] [] (mkComment 2 1 "a" "hi") [("id", Value.str "2")] 2
      (by simp) (by decide) (Or.inl ⟨rfl, by decide, by decide, by decide⟩)⟩

/-! ## C9: the literal scenario -/

/-- C9: on the literal scenario the join succeeds with exactly the two records for
`postId` `1`, in comment order; the comment with `postId` `2` yields nothing. -/
theorem scenario_result :
    join [mkComment 1 1 "a" "hi", mkComment 1 2 "b" "yo", mkComment 2 3 "c" "sup"]
        [mkPost 10 1 "Post One" "..."] [mkUser 10 "alice"] =
      some [{ postId := 1, postName := "Post One", commentsCount := 2, userName := "alice",
              body := "hi" },
            { postId := 1, postName := "Post One", commentsCount := 2, userName := "alice",
              body := "yo" }] ∧
    combineStep [mkComment 1 1 "a" "hi", mkComment 1 2 "b" "yo", mkComment 2 3 "c" "sup"]
        [mkPost 10 1 "Post One" "..."] [mkUser 10 "alice"] (mkComment 2 3 "c" "sup") =
      some none := by
  decide

/-! ## C10: the handler on failure -/

/-- C10, as stated, fails: when the three fetches succeed and the join fails (here a matched
post whose `userId` has no user), the handler panics; no 500 response is written. -/
theorem handler_failure_counterexample :
    join [mkComment 1 1 "a" "hi"] [mkPost 10 1 "T" "b"] [] = none ∧
    combinedDataHandler (fun url =>
        if url = commentsURL then Except.ok [mkComment 1 1 "a" "hi"]
        else if url = postsURL then Except.ok [mkPost 10 1 "T" "b"]
        else Except.ok []) (fun _ => Except.ok "[]") = Response.panicked := by
  decide

/-- C10 (amended): if the fetch-and-join pipeline fails, no 200 response and no JSON array
is produced.  Either a fetch failed, and the handler answers `http.Error` with that
error's message and status 500; or the three fetches succeeded and the join failed, and the
handler panics without writing a response. -/
theorem handler_on_failure (fetchData : String → Except String (List Record))
    (marshal : Slice CombinedRecord → Except String String)
    (hfail : ∀ out, combineData fetchData ≠ some (Except.ok out)) :
    (∃ url msg, url ∈ [commentsURL, postsURL, usersURL] ∧
      fetchData url = Except.error msg ∧
      combinedDataHandler fetchData marshal = Response.error msg 500) ∨
    (∃ comments posts users, fetchData commentsURL = Except.ok comments ∧
      fetchData postsURL = Except.ok posts ∧ fetchData usersURL = Except.ok users ∧
      join comments posts users = none ∧
      combinedDataHandler fetchData marshal = Response.panicked) := by
  cases hc : fetchData commentsURL with
  | error err =>
    left
    refine ⟨commentsURL, err, by simp, hc, ?_⟩
    simp only [combinedDataHandler, combineData, hc, StatusInternalServerError]
  | ok comments =>
    cases hp : fetchData postsURL with
    | error err =>
      left
      refine ⟨postsURL, err, by simp, hp, ?_⟩
      simp only [combinedDataHandler, combineData, hc, hp, StatusInternalServerError]
    | ok posts =>
      cases hu : fetchData usersURL with
      | error err =>
        left
        refine ⟨usersURL, err, by simp, hu, ?_⟩
        simp only [combinedDataHandler, combineData, hc, hp, hu, StatusInternalServerError]
      | ok users =>
        right
        cases hj : join comments posts users with
        | none =>
          refine ⟨comments, posts, users, rfl, rfl, rfl, hj, ?_⟩
          simp only [combinedDataHandler, combineData, hc, hp, hu, joinSlice_eq_join, hj,
            Option.map_none']
        | some out =>
          exfalso
          apply hfail (Slice.elems out)
          simp only [combineData, hc, hp, hu, joinSlice_eq_join, hj, Option.map_some']

theorem handler_on_failure_witness :
    (∀ out, combineData (fun url =>
        if url = usersURL then Except.error "connection refused" else Except.ok []) ≠
      some (Except.ok out)) ∧
    ((∃ url msg, url ∈ [commentsURL, postsURL, usersURL] ∧
      (fun url => if url = usersURL then Except.error "connection refused"
        else (Except.ok [] : Except String (List Record))) url = Except.error msg ∧
      combinedDataHandler (fun url =>
        if url = usersURL then Except.error "connection refused" else Except.ok [])
        (fun _ => Except.ok "[]") = Response.error msg 500) ∨
    (∃ comments posts users,
      (fun url => if url = usersURL then Except.error "connection refused"
        else (Except.ok [] : Except String (List Record))) commentsURL = Except.ok comments ∧
      (fun url => if url = usersURL then Except.error "connection refused"
        else (Except.ok [] : Except String (List Record))) postsURL = Except.ok posts ∧
      (fun url => if url = usersURL then Except.error "connection refused"
        else (Except.ok [] : Except String (List Record))) usersURL = Except.ok users ∧
      join comments posts users = none ∧
      combinedDataHandler (fun url =>
        if url = usersURL then Except.error "connection refused" else Except.ok [])
        (fun _ => Except.ok "[]") = Response.panicked)) :=
  ⟨fun out => by simp [combineData, commentsURL, postsURL, usersURL],
    handler_on_failure _ (fun _ => Except.ok "[]")
      (fun out => by simp [combineData, commentsURL, postsURL, usersURL])⟩

/-! ## C11: empty collections -/

/-- C11: if the three fetched collections are empty, the join succeeds and its result is
the empty sequence, held in the slice made by `make` at line 49, which is empty and not
nil; the handler answers with status 200, `Content-Type: application/json` and the body
`[]`, where a nil slice would have been serialised as `null`. -/
theorem empty_collections (fetchData : String → Except String (List Record))
    (encodeElem : CombinedRecord → String)
    (hc : fetchData commentsURL = Except.ok [])
    (hp : fetchData postsURL = Except.ok [])
    (hu : fetchData usersURL = Except.ok []) :
    join [] [] [] = some [] ∧
    joinSlice [] [] [] = some (Slice.elems []) ∧
    joinSlice [] [] [] ≠ some Slice.nil ∧
    combineData fetchData = some (Except.ok (Slice.elems [])) ∧
    combinedDataHandler fetchData (jsonMarshal encodeElem) =
      Response.written "application/json" 200 "[]" ∧
    jsonMarshal encodeElem Slice.nil = Except.ok "null" := by
  have hj : joinSlice [] [] [] = some (Slice.elems []) := rfl
  have hcd : combineData fetchData = some (Except.ok (Slice.elems [])) := by
    simp only [combineData, hc, hp, hu, hj]
  refine ⟨rfl, hj, ?_, hcd, ?_, rfl⟩
  · rw [hj]
    intro hcontra
    cases hcontra
  · simp only [combinedDataHandler, hcd, jsonMarshal, StatusOK]
    rfl

theorem empty_collections_witness :
    ((fun _ => Except.ok [] : String → Except String (List Record)) commentsURL =
        Except.ok [] ∧
      (fun _ => Except.ok [] : String → Except String (List Record)) postsURL =
        Except.ok [] ∧
      (fun _ => Except.ok [] : String → Except String (List Record)) usersURL =
        Except.ok []) ∧
    (join [] [] [] = some [] ∧
      joinSlice [] [] [] = some (Slice.elems []) ∧
      joinSlice [] [] [] ≠ some Slice.nil ∧
      combineData (fun _ => Except.ok []) = some (Except.ok (Slice.elems [])) ∧
      combinedDataHandler (fun _ => Except.ok []) (jsonMarshal (fun r => r.body)) =
        Response.written "application/json" 200 "[]" ∧
      jsonMarshal (fun r => r.body) Slice.nil = Except.ok "null") :=
  ⟨⟨rfl, rfl, rfl⟩,
    empty_collections (fun _ => Except.ok []) (fun r => r.body) rfl rfl rfl⟩

/-! ## C13: well-formed, referentially complete input -/

theorem scanByID_total {α : Type} {conv : Record → Option α} {id : Int} :
    ∀ {rs : List Record}, (∀ r ∈ rs, ∃ y, assertFloat64 (r.get "id") = some y) →
      (∀ r ∈ rs, ∃ a, conv r = some a) → ∃ o, scanByID conv rs id = some o := by
  intro rs
  induction rs with
  | nil => intro _ _; exact ⟨none, rfl⟩
  | cons r rs ih =>
    intro hid hconv
    obtain ⟨y, hy⟩ := hid r (List.mem_cons_self _ _)
    obtain ⟨a, ha⟩ := hconv r (List.mem_cons_self _ _)
    by_cases hm : y = goFloat64 id
    · exact ⟨some a, by simp [scanByID, hy, hm, ha]⟩
    · obtain ⟨o, ho⟩ := ih (fun q hq => hid q (List.mem_cons_of_mem _ hq))
        (fun q hq => hconv q (List.mem_cons_of_mem _ hq))
      exact ⟨o, by simp [scanByID, hy, hm, ho]⟩

theorem wellTypedComment_toComment {c : Record} (h : wellTypedComment c = true) :
    ∃ comment, toComment c = some comment := by
  cases hc : toComment c with
  | none =>
    rw [toComment_eq_none_iff] at hc
    rw [hc] at h
    cases h
  | some comment => exact ⟨comment, rfl⟩

theorem wellTypedPost_toPost {p : Record} (h : wellTypedPost p = true) :
    ∃ post, toPost p = some post := by
  cases hp : toPost p with
  | none =>
    rw [toPost_eq_none_iff] at hp
    rw [hp] at h
    cases h
  | some post => exact ⟨post, rfl⟩

theorem wellTypedUser_toUser {u : Record} (h : wellTypedUser u = true) :
    ∃ user, toUser u = some user := by
  cases hu : toUser u with
  | none =>
    rw [toUser_eq_none_iff] at hu
    rw [hu] at h
    cases h
  | some user => exact ⟨user, rfl⟩

theorem findPostByID_total {posts : List Record} (id : Int)
    (h : ∀ p ∈ posts, wellTypedPost p = true) : ∃ o, findPostByID posts id = some o := by
  rw [findPostByID_eq_scan]
  exact scanByID_total (fun p hp => wellTypedPost_id (h p hp))
    (fun p hp => wellTypedPost_toPost (h p hp))

theorem findUserByID_total {users : List Record} (id : Int)
    (h : ∀ u ∈ users, wellTypedUser u = true) : ∃ o, findUserByID users id = some o := by
  rw [findUserByID_eq_scan]
  refine scanByID_total (fun u hu => ?_) (fun u hu => wellTypedUser_toUser (h u hu))
  obtain ⟨user, huser⟩ := wellTypedUser_toUser (h u hu)
  obtain ⟨x, hx, _⟩ := toUser_some huser
  exact ⟨x, hx⟩

theorem getCommentsForPost_total (id : Int) :
    ∀ {comments : List Record}, (∀ c ∈ comments, wellTypedComment c = true) →
      ∃ l, getCommentsForPost comments id = some l := by
  intro comments
  induction comments with
  | nil => intro _; exact ⟨[], rfl⟩
  | cons c cs ih =>
    intro h
    obtain ⟨comment, hcm⟩ := wellTypedComment_toComment (h c (List.mem_cons_self _ _))
    obtain ⟨x, _, hx, _⟩ := toComment_some hcm
    obtain ⟨l, hl⟩ := ih (fun d hd => h d (List.mem_cons_of_mem _ hd))
    rw [getCommentsForPost_cons]
    by_cases hm : x = goFloat64 id
    · exact ⟨comment :: l, by simp [hx, hm, hcm, hl]⟩
    · exact ⟨l, by simp [hx, hm, hl]⟩

theorem combineStep_total {comments posts users : List Record} {c : Record}
    (hc : wellTypedComment c = true)
    (hcs : ∀ d ∈ comments, wellTypedComment d = true)
    (hps : ∀ p ∈ posts, wellTypedPost p = true)
    (hus : ∀ u ∈ users, wellTypedUser u = true)
    (hint : ∀ p ∈ posts, userIdIsInt p = true)
    (href : ∀ p ∈ posts, userIdResolves users p = true) :
    ∃ o, combineStep comments posts users c = some o := by
  obtain ⟨comment, hcm⟩ := wellTypedComment_toComment hc
  obtain ⟨o, hfind⟩ := findPostByID_total comment.PostID hps
  cases o with
  | none =>
    refine ⟨none, ?_⟩
    rw [combineStep_eq]
    simp only [hcm, hfind]
  | some post =>
    obtain ⟨_, p, hp, _, hpost⟩ := findPostByID_some_some (toComment_inRange hcm) hfind
    obtain ⟨uid, _, huid, _, _, _, hU, _⟩ := toPost_some hpost
    have hden : representableAsInt uid = true := by
      simpa [userIdIsInt, huid] using hint p hp
    have hhas : hasWithId users uid = true := by
      simpa [userIdResolves, huid] using href p hp
    obtain ⟨u, hu, hidu⟩ := hasWithId_eq_true.mp hhas
    obtain ⟨ou, hou⟩ := findUserByID_total post.UserID hus
    obtain ⟨l, hl⟩ := getCommentsForPost_total post.ID hcs
    cases ou with
    | none =>
      exfalso
      rw [findUserByID_eq_scan] at hou
      apply scanByID_some_none hou u hu
      rw [hidu, hU, goInt_cast_of_int hden]
    | some usr => exact ⟨_, combineStep_of_parts hcm hfind hou hl⟩

theorem emitted_total {comments posts users : List Record} :
    ∀ {todo : List Record},
      (∀ c ∈ todo, ∃ o, combineStep comments posts users c = some o) →
      ∃ out, emitted comments posts users todo = some out := by
  intro todo
  induction todo with
  | nil => intro _; exact ⟨[], rfl⟩
  | cons d rest ih =>
    intro h
    obtain ⟨o, ho⟩ := h d (List.mem_cons_self _ _)
    obtain ⟨out, hout⟩ := ih (fun c hc => h c (List.mem_cons_of_mem _ hc))
    unfold emitted
    cases o with
    | none => exact ⟨out, by simp only [ho, hout]⟩
    | some r => exact ⟨r :: out, by simp only [ho, hout, Option.map_some']⟩

/-- C13, as stated, fails.  Every record is well formed and the post's `userId` `10.5`
equals the `id` of a user, yet the lookup is made with `int(10.5) = 10`, finds no user, and
the dereference of the nil `*User` panics.  The same happens with the integer-valued
`userId` `1e19`, looked up as `int(1e19)`, the minimum `int`. -/
theorem well_formed_counterexample :
    (((∀ c ∈ [mkComment 1 1 "a" "hi"], wellTypedComment c = true) ∧
        (∀ p ∈ [mkPost 10.5 1 "T" "b"], wellTypedPost p = true) ∧
        (∀ u ∈ [mkUser 10.5 "alice"], wellTypedUser u = true) ∧
        (∀ p ∈ [mkPost 10.5 1 "T" "b"], userIdResolves [mkUser 10.5 "alice"] p = true)) ∧
      findUserByID [mkUser 10.5 "alice"] (goInt 10.5) = some none ∧
      join [mkComment 1 1 "a" "hi"] [mkPost 10.5 1 "T" "b"] [mkUser 10.5 "alice"] = none) ∧
    (((∀ c ∈ [mkComment 1 1 "a" "hi"], wellTypedComment c = true) ∧
        (∀ p ∈ [mkPost oneE19 1 "T" "b"], wellTypedPost p = true) ∧
        (∀ u ∈ [mkUser oneE19 "big"], wellTypedUser u = true) ∧
        (∀ p ∈ [mkPost oneE19 1 "T" "b"], integerUserId p = true) ∧
        (∀ p ∈ [mkPost oneE19 1 "T" "b"], userIdResolves [mkUser oneE19 "big"] p = true)) ∧
      findUserByID [mkUser oneE19 "big"] (goInt oneE19) = some none ∧
      join [mkComment 1 1 "a" "hi"] [mkPost oneE19 1 "T" "b"] [mkUser oneE19 "big"] = none) := by
  decide!

/-- C13 (amended): the join cannot fail on well-formed, referentially complete input whose
post `userId`s are values of an `int`.  If every comment, post and user record is well
typed, every post's `userId` is integer-valued, lies between `-2^63` and `2^63 - 1` and
equals the `id` of some user, then no type assertion and no dereference fails and the join
returns a sequence of records. -/
theorem join_succeeds_on_well_formed (comments posts users : List Record)
    (hcs : ∀ c ∈ comments, wellTypedComment c = true)
    (hps : ∀ p ∈ posts, wellTypedPost p = true)
    (hus : ∀ u ∈ users, wellTypedUser u = true)
    (hint : ∀ p ∈ posts, userIdIsInt p = true)
    (href : ∀ p ∈ posts, userIdResolves users p = true) :
    ∃ out, join comments posts users = some out := by
  rw [join_eq_emitted]
  exact emitted_total (fun c hc => combineStep_total (hcs c hc) hcs hps hus hint href)

theorem join_succeeds_on_well_formed_witness :
    ((∀ c ∈ scenarioComments, wellTypedComment c = true) ∧
      (∀ p ∈ scenarioPosts, wellTypedPost p = true) ∧
      (∀ u ∈ scenarioUsers, wellTypedUser u = true) ∧
      (∀ p ∈ scenarioPosts, userIdIsInt p = true) ∧
      (∀ p ∈ scenarioPosts, userIdResolves scenarioUsers p = true)) ∧
    (∃ out, join scenarioComments scenarioPosts scenarioUsers = some out) :=
  ⟨⟨by decide, by decide, by decide, by decide, by decide⟩,
    join_succeeds_on_well_formed scenarioComments scenarioPosts scenarioUsers
      (by decide) (by decide) (by decide) (by decide) (by decide)⟩

/-! ## C14, C15: ids that are values of an `int` -/

theorem step_postId_eq {comments posts users : List Record} {c : Record}
    {r : CombinedRecord} (hint : postIdIsInt c = true)
    (h : combineStep comments posts users c = some (some r)) :
    assertFloat64 (c.get "postId") = some (r.postId : ℚ) := by
  obtain ⟨comment, post, u, l, hc, hp, _, _, rfl⟩ := combineStep_some_some h
  obtain ⟨x, i, hx, _, _, _, hpid, _⟩ := toComment_some hc
  obtain ⟨hid, _⟩ := findPostByID_some_some (toComment_inRange hc) hp
  have hden : representableAsInt x = true := by simpa [postIdIsInt, hx] using hint
  show assertFloat64 (c.get "postId") = some ((post.ID : Int) : ℚ)
  rw [hx, hid, hpid, goInt_cast_of_int hden]

theorem getCommentsForPost_mem {id : Int} {c : Record} {comment : Comment}
    (hc : toComment c = some comment)
    (hid : assertFloat64 (c.get "postId") = some (id : ℚ)) :
    ∀ {comments : List Record} {l : List Comment},
      getCommentsForPost comments id = some l → c ∈ comments → comment ∈ l := by
  intro comments
  induction comments with
  | nil => intro l _ hmem; cases hmem
  | cons d ds ih =>
    intro l h hmem
    rw [getCommentsForPost_cons] at h
    cases hd : assertFloat64 (d.get "postId") with
    | none => simp [hd] at h
    | some pid =>
      simp only [hd] at h
      by_cases heq : pid = goFloat64 id
      · simp only [heq, if_true] at h
        cases ht : toComment d with
        | none => simp [ht] at h
        | some dc =>
          cases hr : getCommentsForPost ds id with
          | none => simp [ht, hr] at h
          | some others =>
            simp [ht, hr] at h
            subst h
            rcases List.mem_cons.mp hmem with rfl | hrest
            · rw [hc] at ht
              rw [Option.some.inj ht]
              exact List.mem_cons_self _ _
            · exact List.mem_cons_of_mem _ (ih hr hrest)
      · simp only [heq, if_false] at h
        rcases List.mem_cons.mp hmem with rfl | hrest
        · exfalso
          rw [hid] at hd
          exact heq (Option.some.inj hd).symm
        · exact ih h hrest

/-- C14, as stated, fails: with the integer-valued comment `postId` `1e19` and the
integer-valued post `id` `-2^63` the join succeeds, `int(1e19)` being the minimum `int`,
and the record emitted for the comment has `commentsCount` 0, the comment's own `postId`
not being the post's `id`. -/
theorem commentsCount_pos_counterexample :
    ((∀ c ∈ [mkComment oneE19 1 "a" "hi"], integerPostId c = true) ∧
      (∀ p ∈ [mkPost 10 minIntNumber "Min" "x"], integerId p = true)) ∧
    join [mkComment oneE19 1 "a" "hi"] [mkPost 10 minIntNumber "Min" "x"] [mkUser 10 "alice"] =
      some [⟨minInt, "Min", 0, "alice", "hi"⟩] ∧
    getCommentsForPost [mkComment oneE19 1 "a" "hi"] minInt = some [] := by
  decide!

/-- C14 (amended): whenever the join succeeds and every comment's `postId` is the value of
an `int` (integer-valued, from `-2^63` to `2^63 - 1`), every output record has
`commentsCount` at least 1: the comment the record was emitted for is itself an element of
the slice `getCommentsForPost` returns for the matched post, whose length is the record's
`commentsCount`. -/
theorem commentsCount_pos (comments posts users : List Record) (out : List CombinedRecord)
    (h : join comments posts users = some out)
    (hint : ∀ c ∈ comments, postIdIsInt c = true) :
    ∀ r ∈ out, 1 ≤ r.commentsCount ∧
      ∃ c ∈ comments, ∃ comment l,
        combineStep comments posts users c = some (some r) ∧
        toComment c = some comment ∧
        getCommentsForPost comments r.postId = some l ∧
        comment ∈ l ∧ r.commentsCount = (l.length : Int) := by
  intro r hr
  rw [join_eq_emitted] at h
  obtain ⟨c, hc, hs⟩ := emitted_mem h r hr
  have hpid := step_postId_eq (hint c hc) hs
  obtain ⟨comment, post, u, l, hcm, _, _, hg, hreq⟩ := combineStep_some_some hs
  have hrp : r.postId = post.ID := by rw [hreq]
  have hrc : r.commentsCount = (l.length : Int) := by rw [hreq]
  rw [← hrp] at hg
  have hmem : comment ∈ l := getCommentsForPost_mem hcm hpid hg hc
  refine ⟨?_, c, hc, comment, l, hs, hcm, hg, hmem, hrc⟩
  rw [hrc]
  have : 0 < l.length := List.length_pos_of_mem hmem
  omega

theorem commentsCount_pos_witness :
    (join scenarioComments scenarioPosts scenarioUsers =
        some [⟨1, "Post One", 2, "alice", "hi"⟩, ⟨1, "Post One", 2, "alice", "yo"⟩] ∧
      (∀ c ∈ scenarioComments, postIdIsInt c = true)) ∧
    (∀ r ∈ [(⟨1, "Post One", 2, "alice", "hi"⟩ : CombinedRecord),
        ⟨1, "Post One", 2, "alice", "yo"⟩],
      1 ≤ r.commentsCount ∧
      ∃ c ∈ scenarioComments, ∃ comment l,
        combineStep scenarioComments scenarioPosts scenarioUsers c = some (some r) ∧
        toComment c = some comment ∧
        getCommentsForPost scenarioComments r.postId = some l ∧
        comment ∈ l ∧ r.commentsCount = (l.length : Int)) :=
  ⟨⟨by decide, by decide⟩,
    commentsCount_pos scenarioComments scenarioPosts scenarioUsers _ (by decide) (by decide)⟩

theorem emitted_filter_map {comments posts users : List Record} {β : Type}
    (f : Record → β) (g : CombinedRecord → β) :
    ∀ {todo : List Record} {out : List CombinedRecord},
      emitted comments posts users todo = some out →
      (∀ c ∈ todo, postIdIsInt c = true) →
      (∀ c ∈ todo, ∀ r, combineStep comments posts users c = some (some r) → f c = g r) →
      (todo.filter (hasMatchingPost posts)).map f = out.map g := by
  intro todo
  induction todo with
  | nil =>
    intro out h _ _
    simp [emitted] at h
    subst h
    rfl
  | cons d rest ih =>
    intro out h hint hfg
    have hd := hint d (List.mem_cons_self _ _)
    have hrest : ∀ c ∈ rest, postIdIsInt c = true :=
      fun c hc => hint c (List.mem_cons_of_mem _ hc)
    have hfgrest : ∀ c ∈ rest, ∀ r,
        combineStep comments posts users c = some (some r) → f c = g r :=
      fun c hc => hfg c (List.mem_cons_of_mem _ hc)
    unfold emitted at h
    cases hs : combineStep comments posts users d with
    | none => simp [hs] at h
    | some o =>
      cases o with
      | none =>
        simp only [hs] at h
        rw [List.filter_cons_of_neg (by simp [step_skips_unmatched hd hs])]
        exact ih h hrest hfgrest
      | some r =>
        simp only [hs] at h
        cases he : emitted comments posts users rest with
        | none => simp [he] at h
        | some out0 =>
          simp [he] at h
          subst h
          obtain ⟨hm, _⟩ := step_emits_matching hd hs
          rw [List.filter_cons_of_pos hm]
          simp only [List.map_cons, hfg d (List.mem_cons_self _ _) r hs, ih he hrest hfgrest]

theorem findPostByID_ne_none_of_step {comments posts users : List Record} {c : Record}
    {x : ℚ} {o : Option CombinedRecord} (hc : assertFloat64 (c.get "postId") = some x)
    (hs : combineStep comments posts users c = some o) :
    findPostByID posts (goInt x) ≠ none := by
  intro hnone
  rw [combineStep_none_of_post_panic hc hnone] at hs
  cases hs

theorem emitted_step_some {comments posts users : List Record} :
    ∀ {todo : List Record} {out : List CombinedRecord},
      emitted comments posts users todo = some out →
      ∀ c ∈ todo, ∃ o, combineStep comments posts users c = some o := by
  intro todo out h c hc
  cases hs : combineStep comments posts users c with
  | none =>
    rw [emitted_none_of_step_none hs hc] at h
    cases h
  | some o => exact ⟨o, rfl⟩

/-- C15, as stated, fails: with the integer-valued comment `postId` `1e19` and the
integer-valued post `id` `-2^63` the join succeeds and the record emitted for the comment
has `postId` `-2^63`, not the comment's `1e19`; `findPostByID`, asked for `int(1e19)`,
returns a post although no post has the comment's `postId`. -/
theorem output_postId_counterexample :
    ((∀ c ∈ [mkComment oneE19 1 "a" "hi"], integerPostId c = true) ∧
      (∀ p ∈ [mkPost 10 minIntNumber "Min" "x"], integerId p = true)) ∧
    join [mkComment oneE19 1 "a" "hi"] [mkPost 10 minIntNumber "Min" "x"] [mkUser 10 "alice"] =
      some [⟨minInt, "Min", 0, "alice", "hi"⟩] ∧
    assertFloat64 ((mkComment oneE19 1 "a" "hi").get "postId") ≠
      some ((minInt : Int) : ℚ) ∧
    hasWithId [mkPost 10 minIntNumber "Min" "x"] oneE19 = false ∧
    findPostByID [mkPost 10 minIntNumber "Min" "x"] (goInt oneE19) =
      some (some ⟨10, minInt, "Min", "x"⟩) := by
  decide!

/-- C15 (amended): whenever the join succeeds and every comment's `postId` is the value of
an `int` (integer-valued, from `-2^63` to `2^63 - 1`), the `postId` of the i-th output
record equals the `postId` of the i-th comment that has a post, the comment it was emitted
for.  For each comment, `findPostByID` only returns a post whose `ID` is the id it was
asked for, and it returns nil exactly when no post has that id. -/
theorem output_postId_eq_comment_postId (comments posts users : List Record)
    (out : List CombinedRecord) (h : join comments posts users = some out)
    (hint : ∀ c ∈ comments, postIdIsInt c = true) :
    (comments.filter (hasMatchingPost posts)).map (fun c => assertFloat64 (c.get "postId")) =
      out.map (fun r => some (r.postId : ℚ)) ∧
    (∀ c ∈ comments, ∀ x, assertFloat64 (c.get "postId") = some x →
      (∀ post, findPostByID posts (goInt x) = some (some post) →
        post.ID = goInt x ∧ hasWithId posts x = true) ∧
      (findPostByID posts (goInt x) = some none ↔ hasWithId posts x = false)) := by
  rw [join_eq_emitted] at h
  refine ⟨emitted_filter_map _ _ h hint (fun c hc r hs => step_postId_eq (hint c hc) hs), ?_⟩
  intro c hc x hx
  have hden : representableAsInt x = true := by simpa [postIdIsInt, hx] using hint c hc
  have hcast : ((goInt x : Int) : ℚ) = x := goInt_cast_of_int hden
  have hsome : ∀ post, findPostByID posts (goInt x) = some (some post) →
      post.ID = goInt x ∧ hasWithId posts x = true := by
    intro post hp
    obtain ⟨hid, p, hpm, hpi, _⟩ := findPostByID_some_some (goInt_inRange x) hp
    refine ⟨hid, hasWithId_eq_true.mpr ⟨p, hpm, ?_⟩⟩
    rw [hpi, hcast]
  refine ⟨hsome, ?_, ?_⟩
  · intro hnil
    rw [findPostByID_eq_scan] at hnil
    rw [hasWithId_eq_false, ← hcast]
    exact scanByID_some_none hnil
  · intro hno
    obtain ⟨o, hs⟩ := emitted_step_some h c hc
    have hne := findPostByID_ne_none_of_step hx hs
    cases hf : findPostByID posts (goInt x) with
    | none => exact absurd hf hne
    | some fo =>
      cases fo with
      | none => rfl
      | some post =>
        have := (hsome post hf).2
        rw [hno] at this
        cases this

theorem output_postId_eq_comment_postId_witness :
    (join scenarioComments scenarioPosts scenarioUsers =
        some [⟨1, "Post One", 2, "alice", "hi"⟩, ⟨1, "Post One", 2, "alice", "yo"⟩] ∧
      (∀ c ∈ scenarioComments, postIdIsInt c = true)) ∧
    ((scenarioComments.filter (hasMatchingPost scenarioPosts)).map
        (fun c => assertFloat64 (c.get "postId")) =
      [(⟨1, "Post One", 2, "alice", "hi"⟩ : CombinedRecord),
        ⟨1, "Post One", 2, "alice", "yo"⟩].map (fun r => some (r.postId : ℚ)) ∧
    (∀ c ∈ scenarioComments, ∀ x, assertFloat64 (c.get "postId") = some x →
      (∀ post, findPostByID scenarioPosts (goInt x) = some (some post) →
        post.ID = goInt x ∧ hasWithId scenarioPosts x = true) ∧
      (findPostByID scenarioPosts (goInt x) = some none ↔
        hasWithId scenarioPosts x = false))) :=
  ⟨⟨by decide, by decide⟩,
    output_postId_eq_comment_postId scenarioComments scenarioPosts scenarioUsers _
      (by decide) (by decide)⟩

end GoLang1
